import Mathlib

/-!
Verification development for the achilles vector-document database.

The definitions below are a shallow embedding of the database service layer:
the metadata filter evaluator (pkgs/db_service/filter.go), the write path,
query pipeline, collection lifecycle and document deletion (dbservice
implementation), and the FAISS index cache (pkgs/faiss cache file).

Modelling conventions:
* Go `any` metadata values (the JSON-typed sum produced by BSON decoding) are
  the inductive `GoVal`; Go's numeric tower (int/int8/…/float64), which the
  evaluator only observes through `toFloat64` coercion, is collapsed into
  `.int` and `.float` with rational arithmetic standing in for f64.
* Go maps that the code iterates over are association lists; the list order
  stands for one concrete iteration order of the Go map.
* `(T, error)` returns become `Except ErrorCode` / `Except String`; error
  messages of the filter evaluator are kept, service-level errors keep only
  the error-code taxonomy.
* The external KV engine and filesystem are modelled as non-failing state;
  error branches that can only be reached through engine I/O failures are
  therefore absent, and a returned error means the checked precondition
  failed before any write was committed.
-/

namespace Achilles

/-- Association-list lookup, modelling a Go map read (first binding wins;
the model keeps keys unique). -/
def alGet {α : Type} (k : String) : List (String × α) → Option α
  | [] => none
  | (k', v) :: rest => if k' = k then some v else alGet k rest

/-- Association-list insert-or-overwrite, modelling a Go map/KV put. -/
def alPut {α : Type} (k : String) (v : α) : List (String × α) → List (String × α)
  | [] => [(k, v)]
  | (k', v') :: rest => if k' = k then (k, v) :: rest else (k', v') :: alPut k v rest

/-- Association-list delete of the binding for a key, modelling a KV delete. -/
def alDel {α : Type} (k : String) : List (String × α) → List (String × α)
  | [] => []
  | (k', v') :: rest => if k' = k then rest else (k', v') :: alDel k rest

/-- Apply a batch of puts in order, modelling a batch-writer commit. -/
def putAll {α : Type} (kvs : List (String × α)) (t : List (String × α)) : List (String × α) :=
  kvs.foldl (fun acc kv => alPut kv.1 kv.2 acc) t

/-- JSON-typed Go `any` value as decoded from BSON metadata: null, bool,
number (int kinds and float64), string, array, object. -/
inductive GoVal : Type where
  | null : GoVal
  | bool (b : Bool) : GoVal
  | int (n : Int) : GoVal
  | float (q : ℚ) : GoVal
  | str (s : String) : GoVal
  | arr (xs : List GoVal) : GoVal
  | obj (kvs : List (String × GoVal)) : GoVal

/-- Metadata map of a document (Go map[string]any). -/
abbrev GoMeta := List (String × GoVal)

mutual

/-- Structural equality of Go values, modelling reflect.DeepEqual. -/
def goValBEq (a b : GoVal) : Bool :=
  match a, b with
  | .null, .null => true
  | .bool x, .bool y => x == y
  | .int x, .int y => x == y
  | .float x, .float y => x == y
  | .str x, .str y => x == y
  | .arr xs, .arr ys => goValListBEq xs ys
  | .obj xs, .obj ys => goValKVBEq xs ys
  | _, _ => false
termination_by sizeOf a

/-- Structural equality of Go value arrays. -/
def goValListBEq (xs ys : List GoVal) : Bool :=
  match xs, ys with
  | [], [] => true
  | x :: xs', y :: ys' => goValBEq x y && goValListBEq xs' ys'
  | _, _ => false
termination_by sizeOf xs

/-- Structural equality of Go string-keyed objects. -/
def goValKVBEq (xs ys : List (String × GoVal)) : Bool :=
  match xs, ys with
  | [], [] => true
  | (k1, v1) :: xs', (k2, v2) :: ys' => k1 == k2 && goValBEq v1 v2 && goValKVBEq xs' ys'
  | _, _ => false
termination_by sizeOf xs

end

/-- Go's dollar-operator key test: len(key) > 0 && key[0] == the dollar byte. -/
def isDollarKey (s : String) : Bool :=
  match s.data with
  | c :: _ => c == '$'
  | [] => false

/-- Numeric coercion toFloat64 of filter.go: every Go numeric kind is
normalised to f64; other values are not numbers. -/
def toFloat64 : GoVal → Option ℚ
  | .int n => some (n : ℚ)
  | .float q => some q
  | _ => none

/-- Value of a list of decimal digit characters. -/
def digitsVal (cs : List Char) : Option Nat :=
  if cs.isEmpty then none
  else cs.foldlM (fun acc c => if c.isDigit then some (acc * 10 + (c.toNat - 48)) else none) 0

/-- Modelled from the spec: strconv.ParseFloat (Go standard library, not under
src), restricted to the plain decimal literals the spec's numeric-string
comparison mentions: optional sign, digits, optional fractional digits. -/
def parseGoFloat (s : String) : Option ℚ :=
  let cs := s.data
  let signed : ℚ × List Char :=
    match cs with
    | '-' :: rest => (-1, rest)
    | '+' :: rest => (1, rest)
    | _ => (1, cs)
  let sgn := signed.1
  let body := signed.2
  let intPart := body.takeWhile Char.isDigit
  let rest := body.dropWhile Char.isDigit
  match digitsVal intPart with
  | none => none
  | some ip =>
    match rest with
    | [] => some (sgn * ip)
    | '.' :: frac =>
      match digitsVal frac with
      | none => none
      | some fp => some (sgn * ((ip : ℚ) + (fp : ℚ) / ((10 : ℚ) ^ frac.length)))
    | _ => none

/-- Go interface equality `a == b` restricted to comparable dynamic types.
For two arrays or two objects the Go fast path would panic on the
non-comparable dynamic type; those pairs are routed to the DeepEqual
fallback of `objectsEqual` instead (no claim exercises that pair). -/
def goComparableEq : GoVal → GoVal → Bool
  | .null, .null => true
  | .bool a, .bool b => a == b
  | .int a, .int b => a == b
  | .float a, .float b => a == b
  | .str a, .str b => a == b
  | _, _ => false

/-- objectsEqual of filter.go: interface fast path, then f64 normalisation of
numbers, then type-directed string/bool/null equality, then reflect.DeepEqual
(structural equality in the model). -/
def objectsEqual (a b : GoVal) : Bool :=
  if goComparableEq a b then true
  else
    match toFloat64 a, toFloat64 b with
    | some f1, some f2 => decide (f1 = f2)
    | _, _ =>
      match a with
      | .str _ => false
      | .bool _ => false
      | .null => false
      | _ => goValBEq a b

/-- compareNumbers of filter.go: coerce both sides through f64, parsing
numeric strings; returns sign of the comparison or an error. -/
def compareNumbers (val target : GoVal) : Except String Int :=
  let v1 : Option ℚ :=
    match toFloat64 val with
    | some f => some f
    | none => match val with
      | .str s => parseGoFloat s
      | _ => none
  let v2 : Option ℚ :=
    match toFloat64 target with
    | some f => some f
    | none => match target with
      | .str s => parseGoFloat s
      | _ => none
  match v1, v2 with
  | some a, some b =>
    if a < b then .ok (-1) else if b < a then .ok 1 else .ok 0
  | _, _ => .error "comparison requires numbers"

/-- evalIn of filter.go. The Go type switch has extra branches for []string,
[]int and []float64 slices; every slice in the model's value universe is a
GoVal array, which takes the []interface-slice branch (linear objectsEqual
scan); a non-slice argument is rejected by the reflection fallback. -/
def evalIn (docVal opVal : GoVal) : Except String Bool :=
  match opVal with
  | .arr xs => .ok (xs.any (fun v => objectsEqual docVal v))
  | _ => .error "$in expects an array"

/-- evalNin of filter.go (same branch structure as evalIn, negated). -/
def evalNin (docVal opVal : GoVal) : Except String Bool :=
  match opVal with
  | .arr xs => .ok (!xs.any (fun v => objectsEqual docVal v))
  | _ => .error "$nin expects an array"

/-- isHashable of filter.go: scalars usable as Go map keys. -/
def isHashable : GoVal → Bool
  | .str _ => true
  | .int _ => true
  | .float _ => true
  | .bool _ => true
  | _ => false

/-- normalizeForHash of filter.go: numeric kinds collapse to f64. -/
def normalizeForHash (v : GoVal) : GoVal :=
  match toFloat64 v with
  | some f => .float f
  | none => v

/-- evalArrContains of filter.go: the document value and argument must both be
arrays; hashable argument elements are matched through the normalised hash
set built from the document array, the rest by linear objectsEqual scan. -/
def evalArrContains (docVal opVal : GoVal) : Except String Bool :=
  match docVal with
  | .arr docArr =>
    match opVal with
    | .arr checkArr =>
      .ok (checkArr.any (fun v =>
        if isHashable v then
          docArr.any (fun dv => isHashable dv && goValBEq (normalizeForHash dv) (normalizeForHash v))
        else
          docArr.any (fun dv => objectsEqual dv v)))
    | _ => .error "$arrContains expects an array of values to check"
  | _ => .error "$arrContains requires the field to be an array"

/-- Operator loop of checkCondition in filter.go: conjunctively evaluate every
dollar-prefixed key of the condition map, skipping non-operator keys; an
unknown operator is a syntax error. -/
def checkCondOps (docVal : GoVal) : List (String × GoVal) → Except String Bool
  | [] => .ok true
  | (op, opVal) :: rest =>
    if ¬ isDollarKey op then checkCondOps docVal rest
    else if op = "$eq" then
      if objectsEqual docVal opVal then checkCondOps docVal rest else .ok false
    else if op = "$ne" then
      if objectsEqual docVal opVal then .ok false else checkCondOps docVal rest
    else if op = "$gt" then
      match compareNumbers docVal opVal with
      | .error e => .error e
      | .ok r => if r ≤ 0 then .ok false else checkCondOps docVal rest
    else if op = "$gte" then
      match compareNumbers docVal opVal with
      | .error e => .error e
      | .ok r => if r < 0 then .ok false else checkCondOps docVal rest
    else if op = "$lt" then
      match compareNumbers docVal opVal with
      | .error e => .error e
      | .ok r => if 0 ≤ r then .ok false else checkCondOps docVal rest
    else if op = "$lte" then
      match compareNumbers docVal opVal with
      | .error e => .error e
      | .ok r => if 0 < r then .ok false else checkCondOps docVal rest
    else if op = "$in" then
      match evalIn docVal opVal with
      | .error e => .error e
      | .ok false => .ok false
      | .ok true => checkCondOps docVal rest
    else if op = "$nin" then
      match evalNin docVal opVal with
      | .error e => .error e
      | .ok false => .ok false
      | .ok true => checkCondOps docVal rest
    else if op = "$arrContains" then
      match evalArrContains docVal opVal with
      | .error e => .error e
      | .ok false => .ok false
      | .ok true => checkCondOps docVal rest
    else .error ("unknown operator " ++ op)

/-- checkCondition of filter.go: a condition map with at least one
dollar-prefixed key is an operator map; otherwise the condition is compared
for equality with the field value. -/
def checkCondition (docVal cond : GoVal) : Except String Bool :=
  match cond with
  | .obj condMap =>
    if condMap.any (fun kv => isDollarKey kv.1) then
      checkCondOps docVal condMap
    else .ok (objectsEqual docVal cond)
  | _ => .ok (objectsEqual docVal cond)

mutual

/-- matchesFilter of filter.go: top-level keys are either logical operators
(dollar-prefixed; only $and and $or are known) or field predicates, all
AND-combined; a missing metadata field fails the predicate without error. -/
def matchesFilter (md : GoMeta) (fl : List (String × GoVal)) : Except String Bool :=
  match fl with
  | [] => .ok true
  | (key, cond) :: rest =>
    if isDollarKey key then
      if key = "$and" then
        match evalAndArg md cond with
        | .error e => .error e
        | .ok false => .ok false
        | .ok true => matchesFilter md rest
      else if key = "$or" then
        match evalOrArg md cond with
        | .error e => .error e
        | .ok false => .ok false
        | .ok true => matchesFilter md rest
      else .error ("unknown top-level operator " ++ key)
    else
      match alGet key md with
      | none => .ok false
      | some v =>
        match checkCondition v cond with
        | .error e => .error e
        | .ok false => .ok false
        | .ok true => matchesFilter md rest
termination_by sizeOf fl

/-- evalAnd of filter.go: the argument must be an array (every slice of the
model is a GoVal array, covering both Go slice branches). -/
def evalAndArg (md : GoMeta) (cond : GoVal) : Except String Bool :=
  match cond with
  | .arr items => evalAndItems md items
  | _ => .error "$and must be an array of objects"
termination_by sizeOf cond

/-- Loop body of evalAnd: every item must be an object and must match. -/
def evalAndItems (md : GoMeta) (items : List GoVal) : Except String Bool :=
  match items with
  | [] => .ok true
  | item :: rest =>
    match item with
    | .obj sub =>
      match matchesFilter md sub with
      | .error e => .error e
      | .ok false => .ok false
      | .ok true => evalAndItems md rest
    | _ => .error "item in $and array must be an object"
termination_by sizeOf items

/-- evalOr of filter.go: the argument must be an array. -/
def evalOrArg (md : GoMeta) (cond : GoVal) : Except String Bool :=
  match cond with
  | .arr items => evalOrItems md items
  | _ => .error "$or must be an array of objects"
termination_by sizeOf cond

/-- Loop body of evalOr: short-circuits on the first matching item; an item
whose evaluation errors is treated as a non-match and the error is dropped. -/
def evalOrItems (md : GoMeta) (items : List GoVal) : Except String Bool :=
  match items with
  | [] => .ok false
  | item :: rest =>
    match item with
    | .obj sub =>
      match matchesFilter md sub with
      | .ok true => .ok true
      | _ => evalOrItems md rest
    | _ => .error "item in $or array must be an object"
termination_by sizeOf items

end

/-- Error-code taxonomy of the service layer (DBError codes); the
human-readable messages are dropped in the model. -/
inductive ErrorCode : Type where
  | invalidInput : ErrorCode
  | notFound : ErrorCode
  | alreadyExists : ErrorCode
  | internal : ErrorCode
  | serialization : ErrorCode
  | storage : ErrorCode
deriving DecidableEq

/-- GlowstickDocument: id, content, embedding, metadata. -/
structure GDoc : Type where
  id : String
  content : String
  embedding : List ℚ
  metadata : GoMeta

/-- CollectionCatalogEntry: the fields the service reads back (the object id
and timestamps are write-only in the modelled operations and are omitted). -/
structure CollCatalogEntry : Type where
  ns : String
  tableUri : String
  vectorIndexUri : String

/-- A record stored in the catalog table: a database entry or a collection
entry (distinguished in Go by which struct the bytes decode into). -/
inductive CatalogVal : Type where
  | dbEntry (name : String) : CatalogVal
  | collEntry (e : CollCatalogEntry) : CatalogVal

/-- CollectionStats: document count and persisted index file size. -/
structure CollStats : Type where
  docCount : Int
  vectorIndexSize : Int

/-- A FAISS Flat index: its dimension and the stored vectors in insertion
order (ntotal is the number of stored vectors). -/
structure FaissIndex : Type where
  dim : Nat
  vecs : List (List ℚ)

def FaissIndex.ntotal (ix : FaissIndex) : Nat := ix.vecs.length

/-- Split a flat float array into vectors of length d (the layout faiss add
reads); structurally fuelled by the list length. -/
def splitChunksAux : Nat → Nat → List ℚ → List (List ℚ)
  | 0, _, _ => []
  | fuel + 1, d, l => if l.isEmpty || d == 0 then [] else l.take d :: splitChunksAux fuel d (l.drop d)

def splitChunks (d : Nat) (l : List ℚ) : List (List ℚ) := splitChunksAux l.length d l

/-- faiss index add: append n vectors read from the flat array; the native
engine rejects a call whose flat length disagrees with n times the index
dimension, surfaced by the write path as an internal error. -/
def FaissIndex.add (ix : FaissIndex) (flat : List ℚ) (n : Nat) : Except ErrorCode FaissIndex :=
  if flat.length = n * ix.dim ∧ 0 < ix.dim then
    .ok { ix with vecs := ix.vecs ++ splitChunks ix.dim flat }
  else .error .internal

/-- State of the database service as seen through the KV engine, the index
cache and the index files: created collection tables, the catalog, stats and
label-mapping tables, per-table document rows, and per-path ANN indexes (the
cache entry is authoritative; the write path persists it to the same path
before it publishes stats). -/
structure DBState : Type where
  tables : List String
  catalog : List (String × CatalogVal)
  stats : List (String × CollStats)
  labels : List (String × String)
  docTables : List (String × List (String × GDoc))
  indexes : List (String × FaissIndex)

/-- Catalog key of a collection: the namespace string db.coll. -/
def collKey (dbName collName : String) : String := dbName ++ "." ++ collName

/-- Table URI derived for a collection. -/
def collTableUri (dbName collName : String) : String :=
  "table:collection-" ++ collName ++ "-" ++ dbName

/-- Modelled from the spec: the vectors directory from configuration
(VECTORS_HOME with this default). -/
def vectorsHome : String := "volumes/vectors"

/-- Index file path derived for a collection. -/
def collIndexUri (collName : String) : String :=
  vectorsHome ++ "/" ++ collName ++ ".index"

/-- Decimal digits of a natural number, least significant first, fuelled. -/
def decRevAux : Nat → Nat → List Nat
  | 0, _ => []
  | fuel + 1, n => if n = 0 then [] else n % 10 :: decRevAux fuel (n / 10)

def decDigitsRev (n : Nat) : List Nat := decRevAux n n

/-- Character of a decimal digit. -/
def digitChar (d : Nat) : Char := Char.ofNat (48 + d)

/-- Modelled from the spec: the decimal-string form of a label, as produced by
fmt.Sprintf with the d verb (Go standard library, not under src). -/
def decimalStr (n : Nat) : String :=
  if n = 0 then "0" else String.mk ((decDigitsRev n).reverse.map digitChar)

/-- Modelled from the spec: strconv.FormatInt base 10 (Go standard library,
not under src); ANN labels can be negative (-1 for empty slots). -/
def intDecimalStr (i : Int) : String :=
  if i < 0 then "-" ++ decimalStr i.natAbs else decimalStr i.toNat

/-- GetOrCreate of the index cache as invoked by the write path: reuse the
index cached for the path, otherwise load from disk or create an empty Flat
index of the requested dimension (an absent path means an empty index). -/
def getOrCreateIdx (s : DBState) (path : String) (dim : Nat) : FaissIndex :=
  (alGet path s.indexes).getD { dim := dim, vecs := [] }

/-- Modelled from the spec: byte size of the persisted index file as reported
by os.Stat, a deterministic function of the index contents (Flat index:
header plus dim times ntotal 4-byte floats). -/
def indexFileSize (ix : FaissIndex) : Int := 45 + 4 * ix.dim * ix.vecs.length

/-- Per-document validation of the InsertDocuments loop: every embedding is
non-empty and has the dimension of the first document's embedding. -/
def validBatch (dim : Nat) (docs : List GDoc) : Bool :=
  docs.all (fun d => d.embedding.length != 0 && d.embedding.length == dim)

/-- Label-mapping batch written for a document batch: consecutive labels from
the start label, in batch order, mapped to the document ids. -/
def labelEntries : Nat → List String → List (String × String)
  | _, [] => []
  | l, id :: rest => (decimalStr l, id) :: labelEntries (l + 1) rest

/-- InsertDocuments (array-of-structures write path): resolve the collection,
take the cached index, read startLabel = ntotal under the entry lock,
validate and commit the document batch (rows keep the embedding), add the
flattened embeddings to the index, commit the label-mapping batch, persist
the index and update stats. Failing paths of the model return no state: the
external engine is modelled as non-failing, so every modelled error is a
precondition check that fires before the first commit. -/
def insertDocuments (s : DBState) (dbName collName : String) (docs : List GDoc) :
    Except ErrorCode DBState :=
  if docs.isEmpty then .error .invalidInput
  else
    match alGet (collKey dbName collName) s.catalog with
    | none => .error .notFound
    | some (.dbEntry _) => .error .serialization
    | some (.collEntry ce) =>
      match docs with
      | [] => .error .invalidInput
      | d0 :: _ =>
        if d0.embedding.isEmpty then .error .invalidInput
        else
          let dim := d0.embedding.length
          let ix := getOrCreateIdx s ce.vectorIndexUri dim
          let startLabel := ix.ntotal
          if ¬ validBatch dim docs then .error .invalidInput
          else
            let rows := (alGet ce.tableUri s.docTables).getD []
            let rows' := putAll (docs.map (fun d => (d.id, d))) rows
            let flat := docs.flatMap (fun d => d.embedding)
            match ix.add flat docs.length with
            | .error e => .error e
            | .ok ix' =>
              let labels' := putAll (labelEntries startLabel (docs.map (fun d => d.id))) s.labels
              match alGet (collKey dbName collName) s.stats with
              | none => .error .storage
              | some st =>
                let st' : CollStats :=
                  { docCount := st.docCount + docs.length,
                    vectorIndexSize := indexFileSize ix' }
                .ok { s with
                  docTables := alPut ce.tableUri rows' s.docTables,
                  indexes := alPut ce.vectorIndexUri ix' s.indexes,
                  labels := labels',
                  stats := alPut (collKey dbName collName) st' s.stats }

/-- GlowstickDocumentSOA: parallel arrays of ids, contents, flat embeddings
and metadata maps. -/
structure GDocSOA : Type where
  ids : List String
  contents : List String
  embeddings : List ℚ
  metadatas : List GoMeta

def GDocSOA.documentCount (soa : GDocSOA) : Nat := soa.ids.length

def GDocSOA.embeddingDimension (soa : GDocSOA) : Nat :=
  if soa.ids.length = 0 then 0 else soa.embeddings.length / soa.ids.length

/-- Validate of the SOA batch: non-empty ids, equal array lengths, non-empty
flat embeddings divisible by the document count, non-zero dimension. -/
def GDocSOA.validate (soa : GDocSOA) : Bool :=
  let numDocs := soa.ids.length
  numDocs != 0 &&
  soa.contents.length == numDocs &&
  soa.metadatas.length == numDocs &&
  soa.embeddings.length != 0 &&
  soa.embeddings.length % numDocs == 0 &&
  soa.embeddings.length / numDocs != 0

/-- Document rows built by the SOA path: the embedding is omitted from the
persisted row (it is already in the index). -/
def GDocSOA.rowDocs (soa : GDocSOA) : List (String × GDoc) :=
  (List.range soa.ids.length).map (fun i =>
    (soa.ids.getD i "",
     { id := soa.ids.getD i "", content := soa.contents.getD i "",
       embedding := [], metadata := soa.metadatas.getD i [] }))

/-- InsertDocumentsSOA (struct-of-arrays write path): validate the structure,
then the same sequence as InsertDocuments, committing rows without the
embedding and passing the flat embeddings array straight to the index. -/
def insertDocumentsSOA (s : DBState) (dbName collName : String) (soa : GDocSOA) :
    Except ErrorCode DBState :=
  if ¬ soa.validate then .error .invalidInput
  else
    match alGet (collKey dbName collName) s.catalog with
    | none => .error .notFound
    | some (.dbEntry _) => .error .serialization
    | some (.collEntry ce) =>
      let numDocs := soa.documentCount
      let dim := soa.embeddingDimension
      let ix := getOrCreateIdx s ce.vectorIndexUri dim
      let startLabel := ix.ntotal
      let rows := (alGet ce.tableUri s.docTables).getD []
      let rows' := putAll soa.rowDocs rows
      match ix.add soa.embeddings numDocs with
      | .error e => .error e
      | .ok ix' =>
        let labels' := putAll (labelEntries startLabel soa.ids) s.labels
        match alGet (collKey dbName collName) s.stats with
        | none => .error .storage
        | some st =>
          let st' : CollStats :=
            { docCount := st.docCount + numDocs, vectorIndexSize := indexFileSize ix' }
          .ok { s with
            docTables := alPut ce.tableUri rows' s.docTables,
            indexes := alPut ce.vectorIndexUri ix' s.indexes,
            labels := labels',
            stats := alPut (collKey dbName collName) st' s.stats }

/-- Struct-of-arrays form of an array-of-structures batch (the correspondence
between the two ingestion forms). -/
def soaOf (docs : List GDoc) : GDocSOA :=
  { ids := docs.map (fun d => d.id),
    contents := docs.map (fun d => d.content),
    embeddings := docs.flatMap (fun d => d.embedding),
    metadatas := docs.map (fun d => d.metadata) }

/-- A document row with the embedding omitted, as the SOA path persists it. -/
def eraseEmbedding (d : GDoc) : GDoc :=
  { d with embedding := [] }

/-- CreateCollection: reject the empty name, fail AlreadyExists when the
collection's KV table already exists (the catalog record is not consulted),
otherwise create the table and write the catalog record and the zeroed stats
record (overwriting any stale records under those keys). -/
def createCollection (s : DBState) (dbName collName : String) : Except ErrorCode DBState :=
  if collName.length = 0 then .error .invalidInput
  else
    let tableUri := collTableUri dbName collName
    let key := collKey dbName collName
    if s.tables.contains tableUri then .error .alreadyExists
    else
      let entry : CollCatalogEntry :=
        { ns := key, tableUri := tableUri, vectorIndexUri := collIndexUri collName }
      .ok { s with
        tables := tableUri :: s.tables,
        docTables := alPut tableUri [] s.docTables,
        catalog := alPut key (.collEntry entry) s.catalog,
        stats := alPut key { docCount := 0, vectorIndexSize := 0 } s.stats }

/-- Per-id loop of DeleteDocuments: delete each id that currently exists in
the collection table, counting the rows actually removed. -/
def deleteLoop : List (String × GDoc) → List String → List (String × GDoc) × Nat
  | rows, [] => (rows, 0)
  | rows, id :: rest =>
    match alGet id rows with
    | some _ =>
      let out := deleteLoop (alDel id rows) rest
      (out.1, out.2 + 1)
    | none => deleteLoop rows rest

/-- DeleteDocuments: resolve the collection, delete the listed ids that
exist, and if any row was removed update stats, clamping the document count
at zero; an absent stats record is silently tolerated. -/
def deleteDocuments (s : DBState) (dbName collName : String) (ids : List String) :
    Except ErrorCode DBState :=
  if ids.isEmpty then .error .invalidInput
  else
    match alGet (collKey dbName collName) s.catalog with
    | none => .error .notFound
    | some (.dbEntry _) => .error .serialization
    | some (.collEntry ce) =>
      let rows := (alGet ce.tableUri s.docTables).getD []
      let out := deleteLoop rows ids
      let s1 := { s with docTables := alPut ce.tableUri out.1 s.docTables }
      if 0 < out.2 then
        match alGet (collKey dbName collName) s.stats with
        | none => .ok s1
        | some st =>
          let c := st.docCount - (out.2 : Int)
          let c' := if c < 0 then 0 else c
          .ok { s1 with
            stats := alPut (collKey dbName collName) { st with docCount := c' } s.stats }
      else .ok s1

/-- Query parameters of QueryCollection. -/
structure QueryStruct : Type where
  topK : Int
  maxDistance : ℚ
  queryEmbedding : List ℚ
  filters : Option GoMeta

/-- One entry of a query result set: the document plus its ANN distance. -/
structure QueryResultSet : Type where
  id : String
  content : String
  embedding : List ℚ
  metadata : GoMeta
  distance : ℚ

/-- processDoc of QueryCollection: resolve the ANN label through the
label-mapping table, fetch and decode the document row, apply the
max-distance cutoff (when max distance is non-zero) and the metadata filter
(a filter error or non-match drops the document); every failure yields none
(the result is silently dropped). -/
def toResultSet (doc : GDoc) (dist : ℚ) : QueryResultSet :=
  { id := doc.id, content := doc.content, embedding := doc.embedding,
    metadata := doc.metadata, distance := dist }

def processDoc (s : DBState) (tableUri : String) (q : QueryStruct) (label : Int) (dist : ℚ) :
    Option QueryResultSet :=
  match alGet (intDecimalStr label) s.labels with
  | none => none
  | some docId =>
    match alGet docId ((alGet tableUri s.docTables).getD []) with
    | none => none
    | some doc =>
      if q.maxDistance ≠ 0 ∧ q.maxDistance ≤ dist then none
      else
        match q.filters with
        | some fl =>
          match matchesFilter doc.metadata fl with
          | .ok true => some (toResultSet doc dist)
          | _ => none
        | none => some (toResultSet doc dist)

/-- Sequential result loop of QueryCollection (taken for at most 3 labels):
surviving documents are appended in ANN order. -/
def querySeqLoop (s : DBState) (tableUri : String) (q : QueryStruct) :
    List (Int × ℚ) → List QueryResultSet
  | [] => []
  | (label, dist) :: rest =>
    match processDoc s tableUri q label dist with
    | some r => r :: querySeqLoop s tableUri q rest
    | none => querySeqLoop s tableUri q rest

/-- Lookup in the collected worker results by original ANN position. -/
def lookupIdx {α : Type} (i : Nat) : List (Nat × α) → Option α
  | [] => none
  | (j, v) :: rest => if j = i then some v else lookupIdx i rest

/-- One worker of the parallel fan-out: process a contiguous chunk of
positions, tagging each surviving result with its original ANN position. -/
def workerResults {α : Type} (f : Nat → Option α) (lo hi : Nat) : List (Nat × α) :=
  (List.range' lo (hi - lo)).filterMap (fun j => (f j).map (fun r => (j, r)))

/-- Collected results of the parallel fan-out: worker i covers positions
i*c to min(i*c + c, n); a worker whose start is past the end produces
nothing (the loop breaks there). -/
def collectParallel {α : Type} (f : Nat → Option α) (n w c : Nat) : List (Nat × α) :=
  (List.range w).flatMap (fun i =>
    if i * c < n then workerResults f (i * c) (min (i * c + c) n) else [])

/-- Final reassembly of the parallel path: walk the original ANN positions in
order and keep the collected results. -/
def assembleParallel {α : Type} (collected : List (Nat × α)) (n : Nat) : List α :=
  (List.range n).filterMap (fun i => lookupIdx i collected)

/-- Position-indexed processing function of the parallel path. -/
def processAt (s : DBState) (tableUri : String) (q : QueryStruct) (prs : List (Int × ℚ))
    (j : Nat) : Option QueryResultSet :=
  match prs[j]? with
  | some (label, dist) => processDoc s tableUri q label dist
  | none => none

/-- Parallel fan-out path of QueryCollection: at most 10 workers over
contiguous chunks of the ANN output; results are keyed by original ANN
position and the output is rebuilt in that order. -/
def queryParallel (s : DBState) (tableUri : String) (q : QueryStruct)
    (prs : List (Int × ℚ)) : List QueryResultSet :=
  let n := prs.length
  let w := min n 10
  let c := (n + w - 1) / w
  assembleParallel (collectParallel (processAt s tableUri q prs) n w c) n

/-- Result-assembly stage of QueryCollection applied to the ANN search output
(label, distance) pairs: sequential for at most 3 labels, parallel fan-out
otherwise. -/
def queryProcess (s : DBState) (tableUri : String) (q : QueryStruct)
    (prs : List (Int × ℚ)) : List QueryResultSet :=
  if prs.length ≤ 3 then querySeqLoop s tableUri q prs
  else queryParallel s tableUri q prs

/-- CachedIndex of the faiss index cache: the in-memory index, the dirty flag
and the last-used timestamp (time.Now is modelled by a logical clock). -/
structure CacheEntry : Type where
  idx : FaissIndex
  dirty : Bool
  lastUsed : Nat

/-- State of the process-wide IndexCache: the path-keyed entries, the
capacity, the on-disk index files, the log of paths written to disk by
WriteToFile (in write order) and the logical clock. -/
structure CacheState : Type where
  entries : List (String × CacheEntry)
  maxSize : Nat
  disk : List (String × FaissIndex)
  written : List String
  clock : Nat

/-- NewIndexCache over a given disk image: empty entry map. -/
def initCache (maxSize : Nat) (disk : List (String × FaissIndex)) : CacheState :=
  { entries := [], maxSize := maxSize, disk := disk, written := [], clock := 0 }

/-- Scan loop of evictOldest: keep the entry with the strictly earliest
last-used timestamp (the first one encountered wins ties). -/
def pickOldestAux (cur : String × CacheEntry) :
    List (String × CacheEntry) → String × CacheEntry
  | [] => cur
  | pe :: rest =>
    if pe.2.lastUsed < cur.2.lastUsed then pickOldestAux pe rest else pickOldestAux cur rest

/-- evictOldest selection: the least-recently-used entry, none if empty. -/
def pickOldest : List (String × CacheEntry) → Option (String × CacheEntry)
  | [] => none
  | pe :: rest => some (pickOldestAux pe rest)

/-- evictOldest: flush the least-recently-used entry to its path if it is
dirty, then release it and remove it from the map. -/
def evictOldest (s : CacheState) : CacheState :=
  match pickOldest s.entries with
  | none => s
  | some (p, e) =>
    { s with
      entries := alDel p s.entries,
      disk := if e.dirty then alPut p e.idx s.disk else s.disk,
      written := if e.dirty then s.written ++ [p] else s.written }

/-- GetOrCreate: a cache hit refreshes the last-used timestamp; a miss loads
the index from disk (or creates an empty Flat index of the requested
dimension), evicting the least-recently-used entry first when the cache is
at capacity, and inserts the new entry with a fresh timestamp. -/
def cacheGetOrCreate (s : CacheState) (path : String) (dim : Nat) : CacheState :=
  match alGet path s.entries with
  | some e =>
    { s with entries := alPut path { e with lastUsed := s.clock } s.entries,
             clock := s.clock + 1 }
  | none =>
    let ix := (alGet path s.disk).getD { dim := dim, vecs := [] }
    let s1 := if s.maxSize ≤ s.entries.length then evictOldest s else s
    { s1 with
      entries := alPut path { idx := ix, dirty := false, lastUsed := s1.clock } s1.entries,
      clock := s1.clock + 1 }

/-- MarkDirty: idempotent dirty note on a present entry. -/
def cacheMarkDirty (s : CacheState) (path : String) : CacheState :=
  match alGet path s.entries with
  | some e => { s with entries := alPut path { e with dirty := true } s.entries }
  | none => s

/-- FlushOne: write a present dirty entry to disk and clear its dirty flag;
silent no-op otherwise. -/
def cacheFlushOne (s : CacheState) (path : String) : CacheState :=
  match alGet path s.entries with
  | none => s
  | some e =>
    if e.dirty then
      { s with
        disk := alPut path e.idx s.disk,
        written := s.written ++ [path],
        entries := alPut path { e with dirty := false } s.entries }
    else s

/-- FlushAll: snapshot the cached paths and flush each. -/
def cacheFlushAll (s : CacheState) : CacheState :=
  (s.entries.map Prod.fst).foldl cacheFlushOne s

/-- Remove: flush the entry, then release and drop it; safe if absent. -/
def cacheRemove (s : CacheState) (path : String) : CacheState :=
  let s1 := cacheFlushOne s path
  { s1 with entries := alDel path s1.entries }

/-- Close: flush all dirty entries, release everything, reset the map. -/
def cacheClose (s : CacheState) : CacheState :=
  let s1 := cacheFlushAll s
  { s1 with entries := [] }

/-- Size: number of cached entries. -/
def cacheSize (s : CacheState) : Nat := s.entries.length

/-- The public operations of the IndexCache. -/
inductive CacheOp : Type where
  | getOrCreate (path : String) (dim : Nat) : CacheOp
  | markDirty (path : String) : CacheOp
  | flushOne (path : String) : CacheOp
  | flushAll : CacheOp
  | remove (path : String) : CacheOp
  | close : CacheOp

/-- One IndexCache operation. -/
def cacheStep (s : CacheState) : CacheOp → CacheState
  | .getOrCreate path dim => cacheGetOrCreate s path dim
  | .markDirty path => cacheMarkDirty s path
  | .flushOne path => cacheFlushOne s path
  | .flushAll => cacheFlushAll s
  | .remove path => cacheRemove s path
  | .close => cacheClose s

/-- A sequence of IndexCache operations from a starting state. -/
def cacheRun (s : CacheState) (ops : List CacheOp) : CacheState :=
  ops.foldl cacheStep s

/-! Association-list lemmas. -/

theorem alGet_alPut_self {α : Type} (k : String) (v : α) (l : List (String × α)) :
    alGet k (alPut k v l) = some v := by
  induction l with
  | nil => simp [alPut, alGet]
  | cons kv rest ih =>
    obtain ⟨k', v'⟩ := kv
    by_cases h : k' = k
    · subst h; simp [alPut, alGet]
    · simp [alPut, alGet, h, ih]

theorem alGet_alPut_ne {α : Type} (k k' : String) (v : α) (l : List (String × α))
    (h : k' ≠ k) : alGet k' (alPut k v l) = alGet k' l := by
  induction l with
  | nil => simp [alPut, alGet, Ne.symm h]
  | cons kv rest ih =>
    obtain ⟨k0, v0⟩ := kv
    by_cases h0 : k0 = k
    · subst h0
      simp [alPut, alGet, Ne.symm h]
    · by_cases h1 : k0 = k'
      · subst h1; simp [alPut, alGet, h0]
      · simp [alPut, alGet, h0, h1, ih]

theorem alGet_append {α : Type} (k : String) (l1 l2 : List (String × α)) :
    alGet k (l1 ++ l2) =
      match alGet k l1 with
      | some v => some v
      | none => alGet k l2 := by
  induction l1 with
  | nil => simp [alGet]
  | cons kv rest ih =>
    obtain ⟨k0, v0⟩ := kv
    by_cases h : k0 = k
    · simp [alGet, h]
    · simp [alGet, h, ih]

theorem alGet_map_val {α β : Type} (k : String) (f : α → β) (l : List (String × α)) :
    alGet k (l.map (fun kv => (kv.1, f kv.2))) = (alGet k l).map f := by
  induction l with
  | nil => simp [alGet]
  | cons kv rest ih =>
    obtain ⟨k0, v0⟩ := kv
    by_cases h : k0 = k
    · simp [alGet, h]
    · simp [alGet, h, ih]

theorem alGet_eq_none_iff {α : Type} (k : String) (l : List (String × α)) :
    alGet k l = none ↔ k ∉ l.map Prod.fst := by
  induction l with
  | nil => simp [alGet]
  | cons kv rest ih =>
    obtain ⟨k0, v0⟩ := kv
    by_cases h : k0 = k
    · subst h; simp [alGet]
    · rw [List.map_cons, List.mem_cons]
      simp only [alGet, h, if_false]
      rw [ih]
      constructor
      · intro hn hmem
        rcases hmem with hmem | hmem
        · exact h hmem.symm
        · exact hn hmem
      · intro hn hmem
        exact hn (Or.inr hmem)

/-- Last binding of a key in a batch of puts (later puts override). -/
def lastBinding {α : Type} (k : String) (kvs : List (String × α)) : Option α :=
  alGet k kvs.reverse

theorem alGet_putAll {α : Type} (k : String) (kvs t : List (String × α)) :
    alGet k (putAll kvs t) =
      match lastBinding k kvs with
      | some v => some v
      | none => alGet k t := by
  induction kvs generalizing t with
  | nil => simp [putAll, lastBinding, alGet]
  | cons kv rest ih =>
    obtain ⟨k0, v0⟩ := kv
    have hput : putAll ((k0, v0) :: rest) t = putAll rest (alPut k0 v0 t) := rfl
    rw [hput, ih]
    have hlb : lastBinding k ((k0, v0) :: rest) =
        match lastBinding k rest with
        | some v => some v
        | none => if k0 = k then some v0 else none := by
      simp only [lastBinding, List.reverse_cons, alGet_append]
      cases alGet k rest.reverse with
      | none => simp [alGet]
      | some v => simp
    rw [hlb]
    cases lastBinding k rest with
    | some v => simp
    | none =>
      by_cases h : k0 = k
      · subst h; simp [alGet_alPut_self]
      · simp [h, alGet_alPut_ne k0 k v0 t (fun hh => h hh.symm)]

theorem lastBinding_map_val {α β : Type} (k : String) (f : α → β) (l : List (String × α)) :
    lastBinding k (l.map (fun kv => (kv.1, f kv.2))) = (lastBinding k l).map f := by
  simp [lastBinding, ← List.map_reverse, alGet_map_val]

theorem lastBinding_isSome_of_mem {α : Type} (k : String) (l : List (String × α))
    (h : k ∈ l.map Prod.fst) : (lastBinding k l).isSome := by
  cases hb : lastBinding k l with
  | some v => simp
  | none =>
    exfalso
    rw [lastBinding, alGet_eq_none_iff] at hb
    exact hb (by simpa using h)

/-! Decimal-string lemmas: the decimal form of a natural number decodes back,
hence distinct labels have distinct string keys. -/

/-- Value of a little-endian digit list. -/
def unDigitsLE (ds : List Nat) : Nat := ds.foldr (fun d acc => d + 10 * acc) 0

theorem unDigitsLE_decRevAux : ∀ fuel n, n ≤ fuel → unDigitsLE (decRevAux fuel n) = n := by
  intro fuel
  induction fuel with
  | zero => intro n hn; interval_cases n; simp [decRevAux, unDigitsLE]
  | succ f ih =>
    intro n hn
    by_cases h0 : n = 0
    · subst h0; simp [decRevAux, unDigitsLE]
    · have hdiv : n / 10 ≤ f := by
        have : n / 10 < n := Nat.div_lt_self (Nat.pos_of_ne_zero h0) (by omega)
        omega
      simp only [decRevAux, h0, if_false, unDigitsLE, List.foldr_cons]
      have := ih (n / 10) hdiv
      simp only [unDigitsLE] at this
      rw [this]
      omega

theorem decRevAux_lt_ten : ∀ fuel n d, d ∈ decRevAux fuel n → d < 10 := by
  intro fuel
  induction fuel with
  | zero => intro n d hd; simp [decRevAux] at hd
  | succ f ih =>
    intro n d hd
    by_cases h0 : n = 0
    · subst h0; simp [decRevAux] at hd
    · simp only [decRevAux, h0, if_false, List.mem_cons] at hd
      rcases hd with h | h
      · subst h; exact Nat.mod_lt _ (by omega)
      · exact ih _ _ h

/-- Digit value of a decimal character. -/
def digitVal (c : Char) : Nat := c.toNat - 48

theorem digitVal_digitChar (d : Nat) (hd : d < 10) : digitVal (digitChar d) = d := by
  interval_cases d <;> decide

/-- Decoder of a decimal string. -/
def decodeDec (s : String) : Nat := unDigitsLE ((s.data.map digitVal).reverse)

theorem decodeDec_decimalStr (n : Nat) : decodeDec (decimalStr n) = n := by
  by_cases h0 : n = 0
  · subst h0; decide
  · simp only [decimalStr, h0, if_false, decodeDec]
    rw [List.map_map]
    have hmap : (decDigitsRev n).reverse.map (digitVal ∘ digitChar) =
        (decDigitsRev n).reverse.map id := by
      apply List.map_congr_left
      intro d hd
      have hd10 : d < 10 := decRevAux_lt_ten n n d (List.mem_reverse.mp hd)
      simp [digitVal_digitChar d hd10]
    rw [hmap, List.map_id, List.reverse_reverse]
    exact unDigitsLE_decRevAux n n le_rfl

theorem decimalStr_injective (a b : Nat) (h : decimalStr a = decimalStr b) : a = b := by
  have := congrArg decodeDec h
  rwa [decodeDec_decimalStr, decodeDec_decimalStr] at this

/-! Filter evaluator: unknown operators and missing fields. -/

/-- The field-level operators known to the condition evaluator. -/
def knownFieldOps : List String :=
  ["$eq", "$ne", "$gt", "$gte", "$lt", "$lte", "$in", "$nin", "$arrContains"]

theorem matchesFilter_unknown_top (md : GoMeta) (op : String) (v : GoVal)
    (rest : List (String × GoVal)) (h1 : isDollarKey op = true)
    (h2 : op ≠ "$and") (h3 : op ≠ "$or") :
    matchesFilter md ((op, v) :: rest) = .error ("unknown top-level operator " ++ op) := by
  rw [matchesFilter]
  simp [h1, h2, h3]

theorem checkCondOps_unknown (dv : GoVal) (op : String) (v : GoVal)
    (h1 : isDollarKey op = true) (hop : op ∉ knownFieldOps) :
    checkCondOps dv [(op, v)] = .error ("unknown operator " ++ op) := by
  simp only [knownFieldOps, List.mem_cons, List.mem_singleton, not_or] at hop
  obtain ⟨e1, e2, e3, e4, e5, e6, e7, e8, e9⟩ := hop
  simp [checkCondOps, h1, e1, e2, e3, e4, e5, e6, e7, e8, e9]

/-- C4 (amended): an unknown top-level operator yields a FilterSyntax error
when its entry is evaluated; an unknown field-level operator yields a
FilterSyntax error when the field is present and the operator map is
evaluated; the error propagates through a $and sub-filter; but inside a $or
sub-filter the error is swallowed: the erroring item counts as a non-match
and evaluation continues with the remaining items. -/
theorem c4_unknown_operator_amended :
    (∀ (md : GoMeta) (op : String) (v : GoVal) (rest : List (String × GoVal)),
        isDollarKey op = true → op ≠ "$and" → op ≠ "$or" →
        matchesFilter md ((op, v) :: rest) = .error ("unknown top-level operator " ++ op))
  ∧ (∀ (md : GoMeta) (fieldKey : String) (dv : GoVal) (op : String) (v : GoVal),
        isDollarKey fieldKey = false → alGet fieldKey md = some dv →
        isDollarKey op = true → op ∉ knownFieldOps →
        matchesFilter md [(fieldKey, .obj [(op, v)])] = .error ("unknown operator " ++ op))
  ∧ (∀ (md : GoMeta) (op : String) (v : GoVal),
        isDollarKey op = true → op ≠ "$and" → op ≠ "$or" →
        matchesFilter md [("$and", .arr [.obj [(op, v)]])] =
          .error ("unknown top-level operator " ++ op))
  ∧ (∀ (md : GoMeta) (op : String) (v : GoVal) (items : List GoVal),
        isDollarKey op = true → op ≠ "$and" → op ≠ "$or" →
        matchesFilter md [("$or", .arr (.obj [(op, v)] :: items))] = evalOrItems md items) := by
  refine ⟨matchesFilter_unknown_top, ?_, ?_, ?_⟩
  · intro md F dv op v hF hget h1 hop
    rw [matchesFilter]
    simp only [hF, Bool.false_eq_true, if_false, hget]
    rw [show checkCondition dv (.obj [(op, v)]) = checkCondOps dv [(op, v)] by
      simp [checkCondition, h1]]
    rw [checkCondOps_unknown dv op v h1 hop]
  · intro md op v h1 h2 h3
    rw [matchesFilter]
    have hAnd : evalAndArg md (.arr [.obj [(op, v)]]) =
        .error ("unknown top-level operator " ++ op) := by
      rw [evalAndArg, evalAndItems, matchesFilter_unknown_top md op v [] h1 h2 h3]
    simp [hAnd, show isDollarKey "$and" = true from by decide]
  · intro md op v items h1 h2 h3
    rw [matchesFilter]
    have hOr : evalOrArg md (.arr (.obj [(op, v)] :: items)) = evalOrItems md items := by
      rw [evalOrArg, evalOrItems, matchesFilter_unknown_top md op v [] h1 h2 h3]
    rw [hOr]
    simp only [show isDollarKey "$or" = true from by decide, if_true,
      show ("$or" = "$and") = False from by simp, if_false,
      show ("$or" = "$or") = True from by simp, if_true]
    cases hE : evalOrItems md items with
    | error e => simp
    | ok b => cases b <;> simp [matchesFilter]

/-- C4 counterexample: a filter whose $or sub-filter contains an unknown
top-level operator evaluates to a match (ok true) rather than a FilterSyntax
error: the erroring item is swallowed and the second item matches. -/
theorem c4_unknown_operator_counterexample :
    matchesFilter [("y", GoVal.int 2)]
      [("$or", GoVal.arr [GoVal.obj [("$not", GoVal.int 1)], GoVal.obj [("y", GoVal.int 2)]])] =
      .ok true := by
  simp +decide [matchesFilter, evalOrArg, evalOrItems, checkCondition, checkCondOps, alGet,
    objectsEqual, goComparableEq, toFloat64, isDollarKey]

/-- Witness of the amended C4 statement at concrete inputs. -/
theorem c4_unknown_operator_witness :
    matchesFilter [] [("$bogus", GoVal.null)] = .error ("unknown top-level operator " ++ "$bogus")
  ∧ matchesFilter [("city", GoVal.str "NY")] [("city", .obj [("$regex", GoVal.str "N")])] =
      .error ("unknown operator " ++ "$regex") :=
  ⟨c4_unknown_operator_amended.1 [] "$bogus" GoVal.null [] (by decide) (by decide) (by decide),
   c4_unknown_operator_amended.2.1 [("city", GoVal.str "NY")] "city" (GoVal.str "NY") "$regex"
     (GoVal.str "N") (by decide) (by rfl) (by decide) (by decide)⟩

/-- C8: a field predicate (non-dollar top-level key) on a field absent from
the document metadata fails without error: as a singleton filter it evaluates
to ok false for every condition (including $ne and $nin conditions), and no
filter containing such a predicate can evaluate to ok true. -/
theorem c8_missing_field_fails :
    (∀ (md : GoMeta) (fieldKey : String) (cond : GoVal),
        isDollarKey fieldKey = false → alGet fieldKey md = none →
        matchesFilter md [(fieldKey, cond)] = .ok false)
  ∧ (∀ (md : GoMeta) (fl : List (String × GoVal)) (fieldKey : String) (cond : GoVal),
        (fieldKey, cond) ∈ fl → isDollarKey fieldKey = false → alGet fieldKey md = none →
        matchesFilter md fl ≠ .ok true) := by
  constructor
  · intro md F cond hF hget
    rw [matchesFilter]
    simp [hF, hget]
  · intro md fl
    induction fl with
    | nil => intro F cond h; simp at h
    | cons kv rest ih =>
      intro F cond hmem hF hget
      obtain ⟨k0, c0⟩ := kv
      rcases List.mem_cons.mp hmem with he | hr
      · rw [Prod.ext_iff] at he
        obtain ⟨hFk, hcc⟩ := he
        subst hFk; subst hcc
        rw [matchesFilter]
        simp [hF, hget]
      · rw [matchesFilter]
        by_cases hk : isDollarKey k0 = true
        · by_cases hand : k0 = "$and"
          · subst hand
            simp only [hk, if_true, reduceIte]
            cases hA : evalAndArg md c0 with
            | error e => simp
            | ok b =>
              cases b with
              | false => simp
              | true => simpa using ih F cond hr hF hget
          · by_cases hor : k0 = "$or"
            · subst hor
              simp only [hk, if_true, hand, if_false, reduceIte]
              cases hA : evalOrArg md c0 with
              | error e => simp
              | ok b =>
                cases b with
                | false => simp
                | true => simpa using ih F cond hr hF hget
            · simp [hk, hand, hor]
        · simp only [Bool.not_eq_true] at hk
          simp only [hk, Bool.false_eq_true, if_false]
          cases hg : alGet k0 md with
          | none => simp [hg]
          | some v =>
            simp only [hg]
            cases hC : checkCondition v c0 with
            | error e => simp [hC]
            | ok b =>
              cases b with
              | false => simp [hC]
              | true => simpa [hC] using ih F cond hr hF hget

/-- Witness of the C8 statement at concrete inputs: a $ne condition on a
missing field fails as a singleton filter, and a $nin condition on a missing
field prevents a larger filter from matching. -/
theorem c8_missing_field_witness :
    matchesFilter [("a", GoVal.int 1)] [("b", GoVal.obj [("$ne", GoVal.int 5)])] = .ok false
  ∧ matchesFilter [("a", GoVal.int 1)]
      [("a", GoVal.int 1), ("b", GoVal.obj [("$nin", GoVal.arr [])])] ≠ .ok true :=
  ⟨c8_missing_field_fails.1 [("a", GoVal.int 1)] "b" (GoVal.obj [("$ne", GoVal.int 5)])
     (by decide) (by rfl),
   c8_missing_field_fails.2 [("a", GoVal.int 1)]
     [("a", GoVal.int 1), ("b", GoVal.obj [("$nin", GoVal.arr [])])] "b"
     (GoVal.obj [("$nin", GoVal.arr [])]) (by simp) (by decide) (by rfl)⟩

/-! Query pipeline: order preservation and result post-conditions. -/

theorem querySeqLoop_eq_filterMap (s : DBState) (uri : String) (q : QueryStruct) :
    ∀ prs : List (Int × ℚ), querySeqLoop s uri q prs =
      prs.filterMap (fun p => processDoc s uri q p.1 p.2) := by
  intro prs
  induction prs with
  | nil => rfl
  | cons p rest ih =>
    obtain ⟨label, dist⟩ := p
    rw [querySeqLoop, List.filterMap_cons]
    cases h : processDoc s uri q label dist <;> simp [h, ih]

/-- Position-tagging form of a partial function. -/
def tagSome {α : Type} (f : Nat → Option α) (j : Nat) : Option (Nat × α) :=
  (f j).map (fun r => (j, r))

theorem flatMap_filterMap_comm {α β γ : Type} (l : List α) (g : α → List β) (f : β → Option γ) :
    (l.flatMap g).filterMap f = l.flatMap (fun a => (g a).filterMap f) := by
  induction l with
  | nil => rfl
  | cons a rest ih => simp [List.flatMap_cons, List.filterMap_append, ih]

theorem range'_chunks (n c : Nat) (hc : 0 < c) :
    ∀ w, (List.range w).flatMap
        (fun i => if i * c < n then List.range' (i * c) (min (i * c + c) n - i * c) else []) =
      List.range' 0 (min (w * c) n) := by
  intro w
  induction w with
  | zero => simp
  | succ w ih =>
    rw [List.range_succ, List.flatMap_append, ih]
    by_cases hwc : w * c < n
    · have h1 : min (w * c) n = w * c := by omega
      have h2 : w * c + (min (w * c + c) n - w * c) = min ((w + 1) * c) n := by
        have : (w + 1) * c = w * c + c := by ring
        omega
      simp only [List.flatMap_cons, List.flatMap_nil, List.append_nil, hwc, if_true, h1]
      rw [show List.range' (w * c) (min (w * c + c) n - w * c) =
          List.range' (0 + w * c) (min (w * c + c) n - w * c) by rw [Nat.zero_add]]
      rw [List.range'_append_1]
      congr 1
      omega
    · have h1 : min (w * c) n = n := by omega
      have h2 : min ((w + 1) * c) n = n := by
        have : (w + 1) * c = w * c + c := by ring
        omega
      simp [hwc, h1, h2]

theorem collectParallel_eq_tagged {α : Type} (f : Nat → Option α) (n w c : Nat) (hc : 0 < c)
    (hwc : n ≤ w * c) :
    collectParallel f n w c = (List.range n).filterMap (tagSome f) := by
  rw [collectParallel]
  have hstep : ∀ i : Nat,
      (if i * c < n then workerResults f (i * c) (min (i * c + c) n) else []) =
      (if i * c < n then List.range' (i * c) (min (i * c + c) n - i * c) else []).filterMap
        (tagSome f) := by
    intro i
    by_cases h : i * c < n
    · simp only [h, if_true, workerResults]
      rfl
    · simp [h]
  calc (List.range w).flatMap
        (fun i => if i * c < n then workerResults f (i * c) (min (i * c + c) n) else [])
      = (List.range w).flatMap
        (fun i => (if i * c < n then List.range' (i * c) (min (i * c + c) n - i * c)
                   else []).filterMap (tagSome f)) := by
        apply List.flatMap_congr
        intro i _
        exact hstep i
    _ = ((List.range w).flatMap
        (fun i => if i * c < n then List.range' (i * c) (min (i * c + c) n - i * c)
                  else [])).filterMap (tagSome f) := (flatMap_filterMap_comm _ _ _).symm
    _ = (List.range' 0 (min (w * c) n)).filterMap (tagSome f) := by rw [range'_chunks n c hc w]
    _ = (List.range n).filterMap (tagSome f) := by
        rw [show min (w * c) n = n from by omega, List.range_eq_range']

theorem lookupIdx_tagged_not_mem {α : Type} (f : Nat → Option α) (l : List Nat) (i : Nat)
    (hi : i ∉ l) : lookupIdx i (l.filterMap (tagSome f)) = none := by
  induction l with
  | nil => rfl
  | cons j rest ih =>
    have hji : j ≠ i := fun h => hi (h ▸ List.mem_cons_self j rest)
    have hrest : i ∉ rest := fun h => hi (List.mem_cons_of_mem j h)
    rw [List.filterMap_cons]
    cases h : tagSome f j with
    | none => exact ih hrest
    | some p =>
      have hp : p.1 = j := by
        simp only [tagSome] at h
        cases hf : f j with
        | none => rw [hf] at h; simp at h
        | some r => rw [hf] at h; simp at h; rw [← h]
      rw [lookupIdx]
      obtain ⟨p1, p2⟩ := p
      simp only at hp
      subst hp
      simp [hji, ih hrest]

theorem lookupIdx_tagged {α : Type} (f : Nat → Option α) (l : List Nat) (hnd : l.Nodup)
    (i : Nat) (hi : i ∈ l) : lookupIdx i (l.filterMap (tagSome f)) = f i := by
  induction l with
  | nil => simp at hi
  | cons j rest ih =>
    have hndr : rest.Nodup := (List.nodup_cons.mp hnd).2
    have hjr : j ∉ rest := (List.nodup_cons.mp hnd).1
    rw [List.filterMap_cons]
    by_cases hij : j = i
    · subst hij
      cases hf : f j with
      | none =>
        have : tagSome f j = none := by simp [tagSome, hf]
        rw [this]
        rw [lookupIdx_tagged_not_mem f rest j hjr]
      | some r =>
        have : tagSome f j = some (j, r) := by simp [tagSome, hf]
        rw [this, lookupIdx]
        simp [hf]
    · have hir : i ∈ rest := by
        rcases List.mem_cons.mp hi with h | h
        · exact absurd h.symm hij
        · exact h
      cases ht : tagSome f j with
      | none => exact ih hndr hir
      | some p =>
        have hp : p.1 = j := by
          simp only [tagSome] at ht
          cases hf : f j with
          | none => rw [hf] at ht; simp at ht
          | some r => rw [hf] at ht; simp at ht; rw [← ht]
        rw [lookupIdx]
        obtain ⟨p1, p2⟩ := p
        simp only at hp
        subst hp
        simp [hij, ih hndr hir]

theorem assembleParallel_tagged {α : Type} (f : Nat → Option α) (n : Nat) :
    assembleParallel ((List.range n).filterMap (tagSome f)) n = (List.range n).filterMap f := by
  rw [assembleParallel]
  apply List.filterMap_congr
  intro i hi
  exact lookupIdx_tagged f (List.range n) (List.nodup_range n) i hi

theorem range_filterMap_getElem {α β : Type} (l : List α) (g : α → Option β) :
    (List.range l.length).filterMap (fun j => (l[j]?).bind g) = l.filterMap g := by
  induction l with
  | nil => rfl
  | cons a rest ih =>
    rw [List.length_cons, List.range_succ_eq_map, List.filterMap_cons, List.filterMap_map]
    have hhead : ((a :: rest)[0]?).bind g = g a := by simp
    have htail : ((fun j => ((a :: rest)[j]?).bind g) ∘ Nat.succ) =
        (fun j => (rest[j]?).bind g) := by
      funext j
      simp [List.getElem?_cons_succ]
    rw [hhead, htail, ih]
    cases hga : g a <;> simp [List.filterMap_cons, hga]

theorem processAt_eq_bind (s : DBState) (uri : String) (q : QueryStruct)
    (prs : List (Int × ℚ)) (j : Nat) :
    processAt s uri q prs j = (prs[j]?).bind (fun p => processDoc s uri q p.1 p.2) := by
  rw [processAt]
  cases h : prs[j]? with
  | none => rfl
  | some p => obtain ⟨a, b⟩ := p; rfl

theorem ceil_mul_ge (n w : Nat) (hw : 0 < w) : n ≤ w * ((n + w - 1) / w) := by
  have hmod := Nat.div_add_mod (n + w - 1) w
  have hlt : (n + w - 1) % w < w := Nat.mod_lt _ hw
  generalize hX : w * ((n + w - 1) / w) = X at hmod ⊢
  generalize hR : (n + w - 1) % w = R at hmod hlt
  omega

theorem ceil_pos (n w : Nat) (hw : 0 < w) (hn : 0 < n) : 0 < (n + w - 1) / w := by
  have h : (1 : Nat) ≤ (n + w - 1) / w := by
    rw [Nat.le_div_iff_mul_le hw]
    omega
  omega

theorem queryParallel_eq_filterMap (s : DBState) (uri : String) (q : QueryStruct)
    (prs : List (Int × ℚ)) :
    queryParallel s uri q prs = prs.filterMap (fun p => processDoc s uri q p.1 p.2) := by
  rw [queryParallel]
  by_cases hn : prs.length = 0
  · rw [List.length_eq_zero] at hn
    subst hn
    rfl
  · have hn1 : 0 < prs.length := Nat.pos_of_ne_zero hn
    have hw : 0 < min prs.length 10 := by omega
    have hc : 0 < (prs.length + min prs.length 10 - 1) / min prs.length 10 :=
      ceil_pos prs.length (min prs.length 10) hw hn1
    have hwc : prs.length ≤
        min prs.length 10 * ((prs.length + min prs.length 10 - 1) / min prs.length 10) :=
      ceil_mul_ge prs.length (min prs.length 10) hw
    rw [collectParallel_eq_tagged _ prs.length (min prs.length 10) _ hc hwc,
      assembleParallel_tagged]
    have hcong : (List.range prs.length).filterMap (processAt s uri q prs) =
        (List.range prs.length).filterMap
          (fun j => (prs[j]?).bind (fun p => processDoc s uri q p.1 p.2)) := by
      apply List.filterMap_congr
      intro j _
      exact processAt_eq_bind s uri q prs j
    rw [hcong, range_filterMap_getElem]

theorem queryProcess_eq_filterMap (s : DBState) (uri : String) (q : QueryStruct)
    (prs : List (Int × ℚ)) :
    queryProcess s uri q prs = prs.filterMap (fun p => processDoc s uri q p.1 p.2) := by
  rw [queryProcess]
  by_cases h : prs.length ≤ 3
  · simp [h, querySeqLoop_eq_filterMap]
  · simp [h, queryParallel_eq_filterMap]

theorem filterMap_map_sublist {α β γ : Type} (l : List α) (f : α → Option β) (g : β → γ)
    (h : α → γ) (hfg : ∀ a r, f a = some r → g r = h a) :
    ((l.filterMap f).map g).Sublist (l.map h) := by
  induction l with
  | nil => simp
  | cons a rest ih =>
    rw [List.filterMap_cons, List.map_cons]
    cases hf : f a with
    | none => exact (ih).cons (h a)
    | some r =>
      rw [List.map_cons, hfg a r hf]
      exact (ih).cons₂ (h a)

theorem processDoc_spec (s : DBState) (uri : String) (q : QueryStruct) (label : Int)
    (dist : ℚ) (r : QueryResultSet) (h : processDoc s uri q label dist = some r) :
    r.distance = dist ∧ (q.maxDistance ≠ 0 → dist < q.maxDistance) ∧
      (∀ fl, q.filters = some fl → matchesFilter r.metadata fl = .ok true) := by
  rw [processDoc] at h
  cases h1 : alGet (intDecimalStr label) s.labels with
  | none => simp [h1] at h
  | some docId =>
    simp only [h1] at h
    cases h2 : alGet docId ((alGet uri s.docTables).getD []) with
    | none => simp [h2] at h
    | some doc =>
      simp only [h2] at h
      by_cases h3 : q.maxDistance ≠ 0 ∧ q.maxDistance ≤ dist
      · simp [h3] at h
      · simp only [h3, if_false] at h
        cases h4 : q.filters with
        | none =>
          simp only [h4, Option.some.injEq] at h
          subst h
          refine ⟨rfl, ?_, ?_⟩
          · intro hmd
            by_contra hlt
            push_neg at hlt
            exact h3 ⟨hmd, hlt⟩
          · intro fl hfl
            exact absurd hfl (by simp)
        | some fl =>
          simp only [h4] at h
          cases h5 : matchesFilter doc.metadata fl with
          | error e => simp [h5] at h
          | ok b =>
            cases b with
            | false => simp [h5] at h
            | true =>
              simp only [h5, Option.some.injEq] at h
              subst h
              refine ⟨rfl, ?_, ?_⟩
              · intro hmd
                by_contra hlt
                push_neg at hlt
                exact h3 ⟨hmd, hlt⟩
              · intro fl2 hfl2
                rw [Option.some.injEq] at hfl2
                subst hfl2
                exact h5

/-- C2: the result list of QueryCollection's assembly stage equals the
in-order filterMap of processDoc over the ANN output: the sequential path,
the parallel fan-out path and the dispatching stage all agree, so each
surviving document sits at its original ANN rank relative to the other
survivors, and the result distances form a subsequence of the ANN distance
order. -/
theorem c2_query_result_order (s : DBState) (uri : String) (q : QueryStruct)
    (prs : List (Int × ℚ)) :
    querySeqLoop s uri q prs = prs.filterMap (fun p => processDoc s uri q p.1 p.2)
  ∧ queryParallel s uri q prs = prs.filterMap (fun p => processDoc s uri q p.1 p.2)
  ∧ queryProcess s uri q prs = prs.filterMap (fun p => processDoc s uri q p.1 p.2)
  ∧ ((queryProcess s uri q prs).map (fun r => r.distance)).Sublist
      (prs.map (fun p => p.2)) :=
  ⟨querySeqLoop_eq_filterMap s uri q prs, queryParallel_eq_filterMap s uri q prs,
   queryProcess_eq_filterMap s uri q prs, by
     rw [queryProcess_eq_filterMap]
     exact filterMap_map_sublist prs _ _ _
       (fun p r h => (processDoc_spec s uri q p.1 p.2 r h).1)⟩

/-- C7: every result returned by QueryCollection's assembly stage satisfies
the two post-conditions: when the query's max distance is positive the
result's ANN distance is strictly below it, and when a filter is present the
result's metadata matches it. -/
theorem c7_query_postconditions (s : DBState) (uri : String) (q : QueryStruct)
    (prs : List (Int × ℚ)) (r : QueryResultSet) (hr : r ∈ queryProcess s uri q prs) :
    (0 < q.maxDistance → r.distance < q.maxDistance)
  ∧ (∀ fl, q.filters = some fl → matchesFilter r.metadata fl = .ok true) := by
  rw [queryProcess_eq_filterMap] at hr
  obtain ⟨p, hp, hsome⟩ := List.mem_filterMap.mp hr
  obtain ⟨hd, hcut, hfl⟩ := processDoc_spec s uri q p.1 p.2 r hsome
  refine ⟨?_, hfl⟩
  intro hpos
  rw [hd]
  exact hcut (ne_of_gt hpos)

/-- Document of the C7 witness state. -/
def c7Doc : GDoc :=
  { id := "a", content := "hello", embedding := [], metadata := [("k", GoVal.int 1)] }

/-- Concrete database state of the C7 witness. -/
def c7State : DBState :=
  { tables := ["t"], catalog := [], stats := [], labels := [("0", "a")],
    docTables := [("t", [("a", c7Doc)])], indexes := [] }

/-- Concrete query of the C7 witness: positive max distance and a filter. -/
def c7Query : QueryStruct :=
  { topK := 1, maxDistance := 1, queryEmbedding := [], filters := some [("k", GoVal.int 1)] }

/-- Witness of C7 at a concrete state, query and ANN output. -/
theorem c7_query_postconditions_witness :
    (0 < c7Query.maxDistance → (toResultSet c7Doc 0).distance < c7Query.maxDistance)
  ∧ (∀ fl, c7Query.filters = some fl →
      matchesFilter (toResultSet c7Doc 0).metadata fl = .ok true) :=
  c7_query_postconditions c7State "t" c7Query [((0 : Int), (0 : ℚ))] (toResultSet c7Doc 0)
    (by
      have hm : matchesFilter [("k", GoVal.int 1)] [("k", GoVal.int 1)] = .ok true := by
        simp +decide [matchesFilter, alGet, checkCondition, objectsEqual, goComparableEq,
          isDollarKey]
      simp +decide [queryProcess, querySeqLoop, processDoc, c7State, c7Query, alGet,
        intDecimalStr, decimalStr, hm, c7Doc])

/-! Write path: label assignment. -/

theorem splitChunksAux_length (d : Nat) (hd : 0 < d) :
    ∀ n fuel (l : List ℚ), l.length = n * d → l.length ≤ fuel →
      (splitChunksAux fuel d l).length = n := by
  intro n
  induction n with
  | zero =>
    intro fuel l hl _
    have : l = [] := List.length_eq_zero.mp (by omega)
    subst this
    cases fuel <;> simp [splitChunksAux]
  | succ n ih =>
    intro fuel l hl hf
    have hlen : l.length = (n + 1) * d := hl
    have hne : l ≠ [] := by
      intro hnil
      subst hnil
      simp at hlen
      omega
    have hlpos : 0 < l.length := List.length_pos.mpr hne
    cases fuel with
    | zero => omega
    | succ f =>
      rw [splitChunksAux]
      have hisEmpty : l.isEmpty = false := by
        cases l with
        | nil => exact absurd rfl hne
        | cons a as => rfl
      have hdne : (d == 0) = false := by
        simp [Nat.pos_iff_ne_zero.mp hd]
      rw [hisEmpty, hdne]
      simp only [Bool.or_self, Bool.false_eq_true, if_false, List.length_cons]
      have hdrop : (l.drop d).length = n * d := by
        rw [List.length_drop, hlen]
        have : (n + 1) * d = n * d + d := by ring
        omega
      rw [ih f (l.drop d) hdrop (by rw [List.length_drop]; omega)]

theorem splitChunks_length (d n : Nat) (l : List ℚ) (hd : 0 < d) (hl : l.length = n * d) :
    (splitChunks d l).length = n :=
  splitChunksAux_length d hd n l.length l hl le_rfl

/-- Number of entries of the ANN index stored for a path (0 when absent). -/
def ntotalAt (s : DBState) (path : String) : Nat :=
  ((alGet path s.indexes).map FaissIndex.ntotal).getD 0

theorem getOrCreateIdx_ntotal (s : DBState) (path : String) (dim : Nat) :
    (getOrCreateIdx s path dim).ntotal = ntotalAt s path := by
  rw [getOrCreateIdx, ntotalAt]
  cases alGet path s.indexes <;> rfl

theorem add_ok_inv (ix ix' : FaissIndex) (flat : List ℚ) (n : Nat)
    (h : ix.add flat n = .ok ix') :
    ix'.ntotal = ix.ntotal + n ∧ ix'.dim = ix.dim := by
  rw [FaissIndex.add] at h
  by_cases hc : flat.length = n * ix.dim ∧ 0 < ix.dim
  · rw [if_pos hc] at h
    simp only [Except.ok.injEq] at h
    subst h
    constructor
    · simp only [FaissIndex.ntotal, List.length_append]
      rw [splitChunks_length ix.dim n flat hc.2 hc.1]
    · rfl
  · rw [if_neg hc] at h
    exact absurd h (by simp)

theorem insertDocuments_ok_labels (s s' : DBState) (dbName collName : String)
    (docs : List GDoc) (ce : CollCatalogEntry)
    (hce : alGet (collKey dbName collName) s.catalog = some (.collEntry ce))
    (h : insertDocuments s dbName collName docs = .ok s') :
    s'.labels = putAll (labelEntries (ntotalAt s ce.vectorIndexUri)
        (docs.map (fun d => d.id))) s.labels
  ∧ ntotalAt s' ce.vectorIndexUri = ntotalAt s ce.vectorIndexUri + docs.length
  ∧ s'.catalog = s.catalog := by
  cases docs with
  | nil => rw [insertDocuments] at h; simp at h
  | cons d0 rest =>
    rw [insertDocuments] at h
    simp only [List.isEmpty_cons, Bool.false_eq_true, if_false, hce] at h
    by_cases h1 : d0.embedding.isEmpty
    · simp [h1] at h
    · simp only [h1, Bool.false_eq_true, if_false] at h
      by_cases h2 : validBatch d0.embedding.length (d0 :: rest)
      · simp only [h2, not_true, Bool.not_true, Bool.false_eq_true, if_false, ite_not] at h
        cases hadd : (getOrCreateIdx s ce.vectorIndexUri d0.embedding.length).add
            ((d0 :: rest).flatMap (fun d => d.embedding)) (d0 :: rest).length with
        | error e => rw [hadd] at h; simp at h
        | ok ix' =>
          rw [hadd] at h
          cases hst : alGet (collKey dbName collName) s.stats with
          | none => rw [hst] at h; simp at h
          | some st =>
            rw [hst] at h
            simp only [Except.ok.injEq] at h
            subst h
            obtain ⟨hnt, _⟩ := add_ok_inv _ ix' _ _ hadd
            refine ⟨?_, ?_, rfl⟩
            · rw [getOrCreateIdx_ntotal]
            · simp only [ntotalAt, alGet_alPut_self, Option.map_some', Option.getD_some]
              rw [hnt, getOrCreateIdx_ntotal, ntotalAt]
      · simp [h2] at h

theorem insertDocumentsSOA_ok_labels (s s' : DBState) (dbName collName : String)
    (soa : GDocSOA) (ce : CollCatalogEntry)
    (hce : alGet (collKey dbName collName) s.catalog = some (.collEntry ce))
    (h : insertDocumentsSOA s dbName collName soa = .ok s') :
    s'.labels = putAll (labelEntries (ntotalAt s ce.vectorIndexUri) soa.ids) s.labels
  ∧ ntotalAt s' ce.vectorIndexUri = ntotalAt s ce.vectorIndexUri + soa.documentCount
  ∧ s'.catalog = s.catalog := by
  rw [insertDocumentsSOA] at h
  by_cases hv : soa.validate
  · simp only [hv, not_true, Bool.not_true, Bool.false_eq_true, if_false, ite_not, hce] at h
    cases hadd : (getOrCreateIdx s ce.vectorIndexUri soa.embeddingDimension).add
        soa.embeddings soa.documentCount with
    | error e => rw [hadd] at h; simp at h
    | ok ix' =>
      rw [hadd] at h
      cases hst : alGet (collKey dbName collName) s.stats with
      | none => rw [hst] at h; simp at h
      | some st =>
        rw [hst] at h
        simp only [Except.ok.injEq] at h
        subst h
        obtain ⟨hnt, _⟩ := add_ok_inv _ ix' _ _ hadd
        refine ⟨?_, ?_, rfl⟩
        · rw [getOrCreateIdx_ntotal]
        · simp only [ntotalAt, alGet_alPut_self, Option.map_some', Option.getD_some]
          rw [hnt, getOrCreateIdx_ntotal, ntotalAt]
  · simp [hv] at h

theorem labelEntries_keys : ∀ (ids : List String) (L : Nat),
    (labelEntries L ids).map Prod.fst = (List.range' L ids.length).map decimalStr := by
  intro ids
  induction ids with
  | nil => intro L; rfl
  | cons id rest ih =>
    intro L
    rw [labelEntries, List.map_cons, List.length_cons, List.range'_succ, List.map_cons, ih]

theorem labelEntries_disjoint (L : Nat) (ids1 ids2 : List String) (k : String)
    (hk1 : k ∈ (labelEntries L ids1).map Prod.fst)
    (hk2 : k ∈ (labelEntries (L + ids1.length) ids2).map Prod.fst) : False := by
  rw [labelEntries_keys] at hk1 hk2
  obtain ⟨a, ha, hka⟩ := List.mem_map.mp hk1
  obtain ⟨b, hb, hkb⟩ := List.mem_map.mp hk2
  have hab : a = b := decimalStr_injective a b (hka.trans hkb.symm)
  rw [List.mem_range'_1] at ha hb
  omega

/-- C1: a successful insert batch of size n executed when the collection's
index holds L entries writes exactly the label-mapping entries decimal(L)
through decimal(L+n-1) mapped in order to the batch's document ids (that is
what labelEntries L ids enumerates), leaves ntotal at L+n, and a second
sequential batch continues at L+n, so the two label ranges are contiguous
and share no key; the struct-of-arrays insert path assigns labels the same
way. -/
theorem c1_label_assignment (s s1 s2 : DBState) (dbName collName : String)
    (docs1 docs2 : List GDoc) (ce : CollCatalogEntry)
    (hce : alGet (collKey dbName collName) s.catalog = some (.collEntry ce))
    (h1 : insertDocuments s dbName collName docs1 = .ok s1)
    (h2 : insertDocuments s1 dbName collName docs2 = .ok s2) :
    s1.labels = putAll (labelEntries (ntotalAt s ce.vectorIndexUri)
        (docs1.map (fun d => d.id))) s.labels
  ∧ ntotalAt s1 ce.vectorIndexUri = ntotalAt s ce.vectorIndexUri + docs1.length
  ∧ s2.labels = putAll (labelEntries (ntotalAt s ce.vectorIndexUri + docs1.length)
        (docs2.map (fun d => d.id))) s1.labels
  ∧ ntotalAt s2 ce.vectorIndexUri =
      ntotalAt s ce.vectorIndexUri + docs1.length + docs2.length
  ∧ (∀ k, k ∈ (labelEntries (ntotalAt s ce.vectorIndexUri)
        (docs1.map (fun d => d.id))).map Prod.fst →
      k ∉ (labelEntries (ntotalAt s ce.vectorIndexUri + docs1.length)
        (docs2.map (fun d => d.id))).map Prod.fst)
  ∧ (∀ (s' : DBState) (soa : GDocSOA), insertDocumentsSOA s dbName collName soa = .ok s' →
      s'.labels = putAll (labelEntries (ntotalAt s ce.vectorIndexUri) soa.ids) s.labels
      ∧ ntotalAt s' ce.vectorIndexUri = ntotalAt s ce.vectorIndexUri + soa.documentCount) := by
  obtain ⟨hl1, hn1, hcat1⟩ := insertDocuments_ok_labels s s1 dbName collName docs1 ce hce h1
  have hce1 : alGet (collKey dbName collName) s1.catalog = some (.collEntry ce) := by
    rw [hcat1]; exact hce
  obtain ⟨hl2, hn2, _⟩ := insertDocuments_ok_labels s1 s2 dbName collName docs2 ce hce1 h2
  refine ⟨hl1, hn1, ?_, ?_, ?_, ?_⟩
  · rw [hl2, hn1]
  · rw [hn2, hn1]
  · intro k hk1 hk2
    exact labelEntries_disjoint (ntotalAt s ce.vectorIndexUri) (docs1.map (fun d => d.id))
      (docs2.map (fun d => d.id)) k hk1 (by simpa using hk2)
  · intro s' soa hS
    obtain ⟨ha, hb, _⟩ := insertDocumentsSOA_ok_labels s s' dbName collName soa ce hce hS
    exact ⟨ha, hb⟩

def c1Entry : CollCatalogEntry := { ns := "db.c", tableUri := "t", vectorIndexUri := "v" }

def c1State : DBState :=
  { tables := ["t"], catalog := [("db.c", .collEntry c1Entry)],
    stats := [("db.c", { docCount := 0, vectorIndexSize := 0 })],
    labels := [], docTables := [("t", [])], indexes := [] }

def c1DocA : GDoc := { id := "a", content := "x", embedding := [1], metadata := [] }

def c1DocB : GDoc := { id := "b", content := "y", embedding := [2], metadata := [] }

/-- Witness of C1 on a concrete two-batch run. -/
theorem c1_label_assignment_witness :
    ∃ s1 s2,
      insertDocuments c1State "db" "c" [c1DocA] = .ok s1
      ∧ insertDocuments s1 "db" "c" [c1DocB] = .ok s2
      ∧ s1.labels = putAll (labelEntries (ntotalAt c1State c1Entry.vectorIndexUri)
          ([c1DocA].map (fun d => d.id))) c1State.labels
      ∧ ntotalAt s2 c1Entry.vectorIndexUri =
          ntotalAt c1State c1Entry.vectorIndexUri + [c1DocA].length + [c1DocB].length := by
  refine ⟨_, _, rfl, rfl, ?_, ?_⟩
  · exact (c1_label_assignment c1State _ _ "db" "c" [c1DocA] [c1DocB] c1Entry rfl rfl rfl).1
  · exact (c1_label_assignment c1State _ _ "db" "c" [c1DocA] [c1DocB] c1Entry rfl rfl rfl).2.2.2.1

/-! Write path: SOA and AoS equivalence. -/

theorem flatMap_embedding_length (docs : List GDoc) (dim : Nat)
    (hdim : ∀ d ∈ docs, d.embedding.length = dim) :
    (docs.flatMap (fun d => d.embedding)).length = docs.length * dim := by
  induction docs with
  | nil => simp
  | cons d rest ih =>
    rw [List.flatMap_cons, List.length_append, hdim d (by simp),
      ih (fun d hd => hdim d (by simp [hd])), List.length_cons]
    ring

theorem validBatch_of (docs : List GDoc) (dim : Nat)
    (hdim : ∀ d ∈ docs, d.embedding.length = dim) (hpos : 0 < dim) :
    validBatch dim docs = true := by
  rw [validBatch, List.all_eq_true]
  intro d hd
  rw [hdim d hd]
  simp
  omega

theorem soaOf_documentCount (docs : List GDoc) : (soaOf docs).documentCount = docs.length := by
  simp [soaOf, GDocSOA.documentCount]

theorem soaOf_embeddingDimension (docs : List GDoc) (dim : Nat) (hne : docs ≠ [])
    (hdim : ∀ d ∈ docs, d.embedding.length = dim) :
    (soaOf docs).embeddingDimension = dim := by
  rw [GDocSOA.embeddingDimension]
  have hids : (soaOf docs).ids.length = docs.length := by simp [soaOf]
  have hlen : (soaOf docs).embeddings.length = docs.length * dim := by
    simp only [soaOf]
    exact flatMap_embedding_length docs dim hdim
  have hn : docs.length ≠ 0 := fun h => hne (List.length_eq_zero.mp h)
  rw [hids, hlen, if_neg hn, Nat.mul_div_cancel_left dim (Nat.pos_of_ne_zero hn)]

theorem soaOf_validate (docs : List GDoc) (dim : Nat) (hne : docs ≠ [])
    (hdim : ∀ d ∈ docs, d.embedding.length = dim) (hpos : 0 < dim) :
    (soaOf docs).validate = true := by
  have hn : docs.length ≠ 0 := fun h => hne (List.length_eq_zero.mp h)
  have hlen : (soaOf docs).embeddings.length = docs.length * dim := by
    simp only [soaOf]
    exact flatMap_embedding_length docs dim hdim
  rw [GDocSOA.validate]
  simp only [soaOf, List.length_map]
  simp only [soaOf] at hlen
  rw [hlen]
  have h1 : docs.length * dim % docs.length = 0 := Nat.mul_mod_right docs.length dim
  have h2 : docs.length * dim / docs.length = dim :=
    Nat.mul_div_cancel_left dim (Nat.pos_of_ne_zero hn)
  have h3 : docs.length * dim ≠ 0 := Nat.mul_ne_zero hn (by omega)
  simp [hn, h1, h2, h3]
  omega

theorem rowDocs_soaOf : ∀ docs : List GDoc,
    (soaOf docs).rowDocs = docs.map (fun d => (d.id, eraseEmbedding d)) := by
  intro docs
  induction docs with
  | nil => rfl
  | cons d rest ih =>
    rw [GDocSOA.rowDocs]
    have hlen : (soaOf (d :: rest)).ids.length = rest.length + 1 := by simp [soaOf]
    rw [hlen, List.range_succ_eq_map, List.map_cons, List.map_map, List.map_cons]
    refine congrArg₂ List.cons ?_ ?_
    · simp [soaOf, eraseEmbedding]
    · rw [← ih, GDocSOA.rowDocs]
      have hrl : (soaOf rest).ids.length = rest.length := by simp [soaOf]
      rw [hrl]
      apply List.map_congr_left
      intro i hi
      simp [soaOf, List.getD_cons_succ]

theorem insertDocuments_ok_forward (s : DBState) (dbName collName : String) (d0 : GDoc)
    (rest : List GDoc) (dim : Nat) (ce : CollCatalogEntry) (st : CollStats) (ix' : FaissIndex)
    (hdim : ∀ d ∈ (d0 :: rest), d.embedding.length = dim) (hpos : 0 < dim)
    (hce : alGet (collKey dbName collName) s.catalog = some (.collEntry ce))
    (hst : alGet (collKey dbName collName) s.stats = some st)
    (hadd : (getOrCreateIdx s ce.vectorIndexUri dim).add
        ((d0 :: rest).flatMap (fun d => d.embedding)) (d0 :: rest).length = .ok ix') :
    insertDocuments s dbName collName (d0 :: rest) = .ok { s with
      docTables := alPut ce.tableUri
        (putAll ((d0 :: rest).map (fun d => (d.id, d)))
          ((alGet ce.tableUri s.docTables).getD [])) s.docTables,
      indexes := alPut ce.vectorIndexUri ix' s.indexes,
      labels := putAll (labelEntries (getOrCreateIdx s ce.vectorIndexUri dim).ntotal
        ((d0 :: rest).map (fun d => d.id))) s.labels,
      stats := alPut (collKey dbName collName)
        { docCount := st.docCount + (d0 :: rest).length,
          vectorIndexSize := indexFileSize ix' } s.stats } := by
  have hd0 : d0.embedding.length = dim := hdim d0 (by simp)
  have hne : d0.embedding.isEmpty = false := by
    cases hE : d0.embedding with
    | nil => rw [hE] at hd0; simp at hd0; omega
    | cons a as => rfl
  have hvb : validBatch d0.embedding.length (d0 :: rest) = true := by
    rw [hd0]; exact validBatch_of (d0 :: rest) dim hdim hpos
  rw [insertDocuments]
  simp only [List.isEmpty_cons, Bool.false_eq_true, if_false, hce, hne, hvb, not_true,
    Bool.not_true, ite_not, if_false, hd0, hadd, hst,
    validBatch_of (d0 :: rest) dim hdim hpos, if_true]

theorem insertDocumentsSOA_ok_forward (s : DBState) (dbName collName : String)
    (soa : GDocSOA) (ce : CollCatalogEntry) (st : CollStats) (ix' : FaissIndex)
    (hv : soa.validate = true)
    (hce : alGet (collKey dbName collName) s.catalog = some (.collEntry ce))
    (hst : alGet (collKey dbName collName) s.stats = some st)
    (hadd : (getOrCreateIdx s ce.vectorIndexUri soa.embeddingDimension).add
        soa.embeddings soa.documentCount = .ok ix') :
    insertDocumentsSOA s dbName collName soa = .ok { s with
      docTables := alPut ce.tableUri
        (putAll soa.rowDocs ((alGet ce.tableUri s.docTables).getD [])) s.docTables,
      indexes := alPut ce.vectorIndexUri ix' s.indexes,
      labels := putAll (labelEntries
        (getOrCreateIdx s ce.vectorIndexUri soa.embeddingDimension).ntotal soa.ids) s.labels,
      stats := alPut (collKey dbName collName)
        { docCount := st.docCount + soa.documentCount,
          vectorIndexSize := indexFileSize ix' } s.stats } := by
  rw [insertDocumentsSOA]
  simp only [hv, not_true, Bool.not_true, Bool.false_eq_true, if_false, ite_not, hce,
    hadd, hst]

/-- C5: for a valid batch (non-empty, uniform non-zero embedding dimension
matching the index), the struct-of-arrays insert is semantically equivalent
to the array-of-structures insert from the same state: both succeed, and the
resulting states agree on tables, catalog, stats, label mappings and ANN
index contents; the per-id document rows agree except that the SOA path
persists each inserted row with the embedding omitted. -/
theorem c5_soa_equivalence (s : DBState) (dbName collName : String) (docs : List GDoc)
    (dim : Nat) (ce : CollCatalogEntry) (st : CollStats)
    (hdocs : docs ≠ []) (hdim : ∀ d ∈ docs, d.embedding.length = dim) (hpos : 0 < dim)
    (hce : alGet (collKey dbName collName) s.catalog = some (.collEntry ce))
    (hst : alGet (collKey dbName collName) s.stats = some st)
    (hixdim : (getOrCreateIdx s ce.vectorIndexUri dim).dim = dim) :
    ∃ sA sS, insertDocuments s dbName collName docs = .ok sA
      ∧ insertDocumentsSOA s dbName collName (soaOf docs) = .ok sS
      ∧ sS.tables = sA.tables ∧ sS.catalog = sA.catalog ∧ sS.stats = sA.stats
      ∧ sS.labels = sA.labels ∧ sS.indexes = sA.indexes
      ∧ (∀ uri, uri ≠ ce.tableUri → alGet uri sS.docTables = alGet uri sA.docTables)
      ∧ (∀ k, k ∈ docs.map (fun d => d.id) →
          alGet k ((alGet ce.tableUri sS.docTables).getD []) =
            (alGet k ((alGet ce.tableUri sA.docTables).getD [])).map eraseEmbedding)
      ∧ (∀ k, k ∉ docs.map (fun d => d.id) →
          alGet k ((alGet ce.tableUri sS.docTables).getD []) =
            alGet k ((alGet ce.tableUri sA.docTables).getD [])) := by
  obtain ⟨d0, rest, rfl⟩ := List.exists_cons_of_ne_nil hdocs
  have hflat : ((d0 :: rest).flatMap (fun d => d.embedding)).length =
      (d0 :: rest).length * dim := flatMap_embedding_length _ dim hdim
  have haddc : ((d0 :: rest).flatMap (fun d => d.embedding)).length =
      (d0 :: rest).length * (getOrCreateIdx s ce.vectorIndexUri dim).dim ∧
      0 < (getOrCreateIdx s ce.vectorIndexUri dim).dim := by
    rw [hixdim]
    exact ⟨hflat, hpos⟩
  have hadd : (getOrCreateIdx s ce.vectorIndexUri dim).add
      ((d0 :: rest).flatMap (fun d => d.embedding)) (d0 :: rest).length =
      .ok { getOrCreateIdx s ce.vectorIndexUri dim with
        vecs := (getOrCreateIdx s ce.vectorIndexUri dim).vecs ++
          splitChunks (getOrCreateIdx s ce.vectorIndexUri dim).dim
            ((d0 :: rest).flatMap (fun d => d.embedding)) } := by
    rw [FaissIndex.add, if_pos haddc]
  have hA := insertDocuments_ok_forward s dbName collName d0 rest dim ce st _
    hdim hpos hce hst hadd
  have hsoaDim : (soaOf (d0 :: rest)).embeddingDimension = dim :=
    soaOf_embeddingDimension _ dim hdocs hdim
  have hsoaCount : (soaOf (d0 :: rest)).documentCount = (d0 :: rest).length :=
    soaOf_documentCount _
  have haddS : (getOrCreateIdx s ce.vectorIndexUri (soaOf (d0 :: rest)).embeddingDimension).add
      (soaOf (d0 :: rest)).embeddings (soaOf (d0 :: rest)).documentCount =
      .ok { getOrCreateIdx s ce.vectorIndexUri dim with
        vecs := (getOrCreateIdx s ce.vectorIndexUri dim).vecs ++
          splitChunks (getOrCreateIdx s ce.vectorIndexUri dim).dim
            ((d0 :: rest).flatMap (fun d => d.embedding)) } := by
    rw [hsoaDim, hsoaCount]
    exact hadd
  have hS := insertDocumentsSOA_ok_forward s dbName collName (soaOf (d0 :: rest)) ce st _
    (soaOf_validate _ dim hdocs hdim hpos) hce hst haddS
  have hkv : (soaOf (d0 :: rest)).rowDocs =
      ((d0 :: rest).map (fun d => (d.id, d))).map (fun kv => (kv.1, eraseEmbedding kv.2)) := by
    rw [rowDocs_soaOf, List.map_map]
    rfl
  refine ⟨_, _, hA, hS, rfl, rfl, ?_, ?_, rfl, ?_, ?_, ?_⟩
  · simp only [hsoaCount]
  · simp only [hsoaDim]
    rfl
  · intro uri huri
    simp only []
    rw [alGet_alPut_ne ce.tableUri uri _ _ huri, alGet_alPut_ne ce.tableUri uri _ _ huri]
  · intro k hk
    simp only [alGet_alPut_self, Option.getD_some]
    have hmem : k ∈ ((d0 :: rest).map (fun d => (d.id, d))).map Prod.fst := by
      rw [List.map_map]
      simpa using hk
    obtain ⟨v, hv⟩ := Option.isSome_iff_exists.mp
      (lastBinding_isSome_of_mem k _ hmem)
    rw [alGet_putAll, alGet_putAll, hkv, lastBinding_map_val, hv]
    simp
  · intro k hk
    simp only [alGet_alPut_self, Option.getD_some]
    have hnone : lastBinding k ((d0 :: rest).map (fun d => (d.id, d))) = none := by
      rw [lastBinding, alGet_eq_none_iff]
      intro hm
      apply hk
      rw [List.map_reverse, List.mem_reverse, List.map_map] at hm
      simpa using hm
    rw [alGet_putAll, alGet_putAll, hkv, lastBinding_map_val, hnone]
    simp

/-- Witness of C5 on a concrete one-document batch. -/
theorem c5_soa_equivalence_witness :
    ∃ sA sS, insertDocuments c1State "db" "c" [c1DocA] = .ok sA
      ∧ insertDocumentsSOA c1State "db" "c" (soaOf [c1DocA]) = .ok sS
      ∧ sS.tables = sA.tables ∧ sS.catalog = sA.catalog ∧ sS.stats = sA.stats
      ∧ sS.labels = sA.labels ∧ sS.indexes = sA.indexes
      ∧ (∀ uri, uri ≠ c1Entry.tableUri → alGet uri sS.docTables = alGet uri sA.docTables)
      ∧ (∀ k, k ∈ [c1DocA].map (fun d => d.id) →
          alGet k ((alGet c1Entry.tableUri sS.docTables).getD []) =
            (alGet k ((alGet c1Entry.tableUri sA.docTables).getD [])).map eraseEmbedding)
      ∧ (∀ k, k ∉ [c1DocA].map (fun d => d.id) →
          alGet k ((alGet c1Entry.tableUri sS.docTables).getD []) =
            alGet k ((alGet c1Entry.tableUri sA.docTables).getD [])) :=
  c5_soa_equivalence c1State "db" "c" [c1DocA] 1 c1Entry { docCount := 0, vectorIndexSize := 0 }
    (by simp) (by intro d hd; rw [List.mem_singleton] at hd; subst hd; rfl) (by decide)
    rfl rfl rfl

/-! Collection lifecycle: duplicate-creation check. -/

/-- Catalog entry created for a collection by CreateCollection. -/
def newCollEntry (dbName collName : String) : CollCatalogEntry :=
  { ns := collKey dbName collName, tableUri := collTableUri dbName collName,
    vectorIndexUri := collIndexUri collName }

/-- C3 (amended): CreateCollection fails with AlreadyExists exactly when the
collection's KV table already exists; the catalog record is not consulted:
when the table is absent, the call succeeds even if a catalog record for the
collection exists, and overwrites it (and the stats record). When it fails
nothing is created. -/
theorem c3_create_collection_amended (s : DBState) (dbName collName : String)
    (hname : collName.length ≠ 0) :
    (createCollection s dbName collName = .error .alreadyExists ↔
      collTableUri dbName collName ∈ s.tables)
  ∧ (collTableUri dbName collName ∉ s.tables →
      createCollection s dbName collName = .ok { s with
        tables := collTableUri dbName collName :: s.tables,
        docTables := alPut (collTableUri dbName collName) [] s.docTables,
        catalog := alPut (collKey dbName collName)
          (.collEntry (newCollEntry dbName collName)) s.catalog,
        stats := alPut (collKey dbName collName)
          { docCount := 0, vectorIndexSize := 0 } s.stats }) := by
  have hok : ∀ _ : collTableUri dbName collName ∉ s.tables,
      createCollection s dbName collName = .ok { s with
        tables := collTableUri dbName collName :: s.tables,
        docTables := alPut (collTableUri dbName collName) [] s.docTables,
        catalog := alPut (collKey dbName collName)
          (.collEntry (newCollEntry dbName collName)) s.catalog,
        stats := alPut (collKey dbName collName)
          { docCount := 0, vectorIndexSize := 0 } s.stats } := by
    intro hmem
    rw [createCollection, if_neg hname]
    have hc : s.tables.contains (collTableUri dbName collName) = false := by
      simpa using hmem
    simp only [hc, Bool.false_eq_true, if_false]
    rfl
  have herr : ∀ _ : collTableUri dbName collName ∈ s.tables,
      createCollection s dbName collName = .error .alreadyExists := by
    intro hmem
    rw [createCollection, if_neg hname]
    have hc : s.tables.contains (collTableUri dbName collName) = true := by
      simpa using hmem
    simp only [hc, if_true]
  constructor
  · constructor
    · intro h
      by_contra hmem
      rw [hok hmem] at h
      exact Except.noConfusion h
    · exact herr
  · exact hok

/-- Catalog entry of the C3 counterexample state. -/
def c3Entry : CollCatalogEntry :=
  { ns := "db.c", tableUri := "table:collection-c-db",
    vectorIndexUri := "volumes/vectors/c.index" }

/-- C3 counterexample state: the catalog record for db.c exists but the
collection's KV table does not. -/
def c3State : DBState :=
  { tables := [], catalog := [("db.c", .collEntry c3Entry)],
    stats := [], labels := [], docTables := [], indexes := [] }

/-- C3 counterexample: a state whose catalog holds the collection record
while the KV table is absent; CreateCollection succeeds instead of failing
with AlreadyExists. -/
theorem c3_create_collection_counterexample :
    (alGet (collKey "db" "c") c3State.catalog).isSome = true
  ∧ (∃ s', createCollection c3State "db" "c" = .ok s') :=
  ⟨by rfl, ⟨_, by rfl⟩⟩

/-- Witness of the amended C3 statement at a concrete state. -/
theorem c3_create_collection_witness :
    (createCollection c3State "db" "c" = .error .alreadyExists ↔
      collTableUri "db" "c" ∈ c3State.tables)
  ∧ (collTableUri "db" "c" ∉ c3State.tables →
      createCollection c3State "db" "c" = .ok { c3State with
        tables := collTableUri "db" "c" :: c3State.tables,
        docTables := alPut (collTableUri "db" "c") [] c3State.docTables,
        catalog := alPut (collKey "db" "c")
          (.collEntry (newCollEntry "db" "c")) c3State.catalog,
        stats := alPut (collKey "db" "c")
          { docCount := 0, vectorIndexSize := 0 } c3State.stats }) :=
  c3_create_collection_amended c3State "db" "c" (by decide)

/-! Document deletion: idempotence and stats clamping. -/

theorem alGet_alDel_self_of_nodup {α : Type} (k : String) (l : List (String × α))
    (hnd : (l.map Prod.fst).Nodup) : alGet k (alDel k l) = none := by
  induction l with
  | nil => rfl
  | cons kv rest ih =>
    obtain ⟨k0, v0⟩ := kv
    rw [List.map_cons, List.nodup_cons] at hnd
    by_cases h : k0 = k
    · subst h
      rw [alDel, if_pos rfl, alGet_eq_none_iff]
      exact hnd.1
    · rw [alDel, if_neg h, alGet, if_neg h]
      exact ih hnd.2

theorem deleteLoop_single_hit (rows : List (String × GDoc)) (id : String) (doc : GDoc)
    (h : alGet id rows = some doc) : deleteLoop rows [id] = (alDel id rows, 1) := by
  rw [deleteLoop, h]
  rfl

theorem deleteLoop_single_miss (rows : List (String × GDoc)) (id : String)
    (h : alGet id rows = none) : deleteLoop rows [id] = (rows, 0) := by
  rw [deleteLoop, h]
  rfl

/-- C9: deleting the same single existing document twice succeeds both
times; the stats document count decreases exactly once (the second call finds
no row to delete and leaves the stats record untouched). -/
theorem c9_delete_twice (s : DBState) (dbName collName id : String)
    (ce : CollCatalogEntry) (st : CollStats) (doc : GDoc)
    (hce : alGet (collKey dbName collName) s.catalog = some (.collEntry ce))
    (hrow : alGet id ((alGet ce.tableUri s.docTables).getD []) = some doc)
    (hnd : (((alGet ce.tableUri s.docTables).getD []).map Prod.fst).Nodup)
    (hst : alGet (collKey dbName collName) s.stats = some st)
    (hcount : 1 ≤ st.docCount) :
    ∃ s1 s2, deleteDocuments s dbName collName [id] = .ok s1
      ∧ deleteDocuments s1 dbName collName [id] = .ok s2
      ∧ alGet (collKey dbName collName) s1.stats =
          some { st with docCount := st.docCount - 1 }
      ∧ s2.stats = s1.stats := by
  have h1 : deleteDocuments s dbName collName [id] = .ok { s with
      docTables := alPut ce.tableUri
        (alDel id ((alGet ce.tableUri s.docTables).getD [])) s.docTables,
      stats := alPut (collKey dbName collName)
        { st with docCount := st.docCount - 1 } s.stats } := by
    rw [deleteDocuments]
    simp only [List.isEmpty_cons, Bool.false_eq_true, if_false, hce,
      deleteLoop_single_hit _ id doc hrow, Nat.lt_irrefl, hst]
    simp only [Nat.zero_lt_one, if_true, hst, Nat.cast_one]
    rw [if_neg (show ¬ ((st.docCount - 1 : Int) < 0) from by omega)]
  set rows1 := alDel id ((alGet ce.tableUri s.docTables).getD []) with hrows1
  set s1 : DBState := { s with
      docTables := alPut ce.tableUri rows1 s.docTables,
      stats := alPut (collKey dbName collName)
        { st with docCount := st.docCount - 1 } s.stats } with hs1
  have hce1 : alGet (collKey dbName collName) s1.catalog = some (.collEntry ce) := hce
  have hrows : (alGet ce.tableUri s1.docTables).getD [] = rows1 := by
    rw [hs1]
    simp [alGet_alPut_self]
  have hmiss : alGet id rows1 = none := alGet_alDel_self_of_nodup id _ hnd
  have h2 : deleteDocuments s1 dbName collName [id] = .ok { s1 with
      docTables := alPut ce.tableUri rows1 s1.docTables } := by
    rw [deleteDocuments]
    simp only [List.isEmpty_cons, Bool.false_eq_true, if_false, hce1, hrows,
      deleteLoop_single_miss rows1 id hmiss, Nat.lt_irrefl, if_false]
  refine ⟨_, _, h1, h2, ?_, rfl⟩
  rw [hs1]
  simp [alGet_alPut_self]

/-- C10: after every successful DeleteDocuments call the persisted document
count stays non-negative (assuming it was non-negative before, which creation
and every update maintain), and when rows were actually removed the new count
is the old count minus the number of removed rows clamped at zero. -/
theorem c10_doc_count_clamped (s s' : DBState) (dbName collName : String) (ids : List String)
    (h : deleteDocuments s dbName collName ids = .ok s')
    (hinit : ∀ st, alGet (collKey dbName collName) s.stats = some st → 0 ≤ st.docCount) :
    (∀ st', alGet (collKey dbName collName) s'.stats = some st' → 0 ≤ st'.docCount)
  ∧ (∀ ce st, alGet (collKey dbName collName) s.catalog = some (.collEntry ce) →
      alGet (collKey dbName collName) s.stats = some st →
      0 < (deleteLoop ((alGet ce.tableUri s.docTables).getD []) ids).2 →
      alGet (collKey dbName collName) s'.stats = some { st with docCount :=
        if (st.docCount -
            ((deleteLoop ((alGet ce.tableUri s.docTables).getD []) ids).2 : Int)) < 0
        then 0
        else st.docCount -
          ((deleteLoop ((alGet ce.tableUri s.docTables).getD []) ids).2 : Int) }) := by
  rw [deleteDocuments] at h
  cases ids with
  | nil => simp at h
  | cons id0 idrest =>
    simp only [List.isEmpty_cons, Bool.false_eq_true, if_false] at h
    cases hcat : alGet (collKey dbName collName) s.catalog with
    | none => rw [hcat] at h; exact absurd h (by simp)
    | some cv =>
      rw [hcat] at h
      cases cv with
      | dbEntry n => exact absurd h (by simp)
      | collEntry ce =>
        by_cases hpos :
            0 < (deleteLoop ((alGet ce.tableUri s.docTables).getD []) (id0 :: idrest)).2
        · simp only [hpos, if_true] at h
          cases hstat : alGet (collKey dbName collName) s.stats with
          | none =>
            rw [hstat] at h
            simp only [Except.ok.injEq] at h
            subst h
            refine ⟨hinit, ?_⟩
            intro ce2 st hce2 hst2 _
            exact absurd hst2 (by simp)
          | some st =>
            rw [hstat] at h
            simp only [Except.ok.injEq] at h
            subst h
            constructor
            · intro st' h'
              simp only [alGet_alPut_self, Option.some.injEq] at h'
              subst h'
              by_cases hneg : (st.docCount -
                  ((deleteLoop ((alGet ce.tableUri s.docTables).getD [])
                    (id0 :: idrest)).2 : Int)) < 0
              · simp [hneg]
              · simp only [hneg, if_false]
                omega
            · intro ce2 st2 hce2 hst2 _
              simp only [Option.some.injEq, CatalogVal.collEntry.injEq] at hce2
              subst hce2
              simp only [Option.some.injEq] at hst2
              subst hst2
              simp [alGet_alPut_self]
        · simp only [hpos, if_false] at h
          simp only [Except.ok.injEq] at h
          subst h
          refine ⟨hinit, ?_⟩
          intro ce2 st hce2 hst2 hp
          simp only [Option.some.injEq, CatalogVal.collEntry.injEq] at hce2
          subst hce2
          exact absurd hp hpos

/-- Concrete state of the C9 witness. -/
def c9State : DBState :=
  { tables := ["t"], catalog := [("db.c", .collEntry c1Entry)],
    stats := [("db.c", { docCount := 1, vectorIndexSize := 0 })],
    labels := [("0", "a")], docTables := [("t", [("a", c1DocA)])], indexes := [] }

/-- Witness of C9 on a concrete one-document collection. -/
theorem c9_delete_twice_witness :
    ∃ s1 s2, deleteDocuments c9State "db" "c" ["a"] = .ok s1
      ∧ deleteDocuments s1 "db" "c" ["a"] = .ok s2
      ∧ alGet (collKey "db" "c") s1.stats =
          some { docCount := (1 : Int) - 1, vectorIndexSize := 0 }
      ∧ s2.stats = s1.stats :=
  c9_delete_twice c9State "db" "c" "a" c1Entry { docCount := 1, vectorIndexSize := 0 } c1DocA
    rfl rfl (by decide) rfl (by decide)

/-- Concrete state of the C10 witness: stored count 1, two rows present. -/
def c10State : DBState :=
  { tables := ["t"], catalog := [("db.c", .collEntry c1Entry)],
    stats := [("db.c", { docCount := 1, vectorIndexSize := 0 })],
    labels := [], docTables := [("t", [("a", c1DocA), ("b", c1DocB)])], indexes := [] }

/-- Witness of C10: two rows removed from a collection whose stored count is
1; the count clamps to zero. -/
theorem c10_doc_count_clamped_witness :
    ∃ s', deleteDocuments c10State "db" "c" ["a", "b"] = .ok s'
      ∧ (∀ st', alGet (collKey "db" "c") s'.stats = some st' → 0 ≤ st'.docCount)
      ∧ (∀ ce st, alGet (collKey "db" "c") c10State.catalog = some (.collEntry ce) →
          alGet (collKey "db" "c") c10State.stats = some st →
          0 < (deleteLoop ((alGet ce.tableUri c10State.docTables).getD []) ["a", "b"]).2 →
          alGet (collKey "db" "c") s'.stats = some { st with docCount :=
            if (st.docCount -
                ((deleteLoop ((alGet ce.tableUri c10State.docTables).getD [])
                  ["a", "b"]).2 : Int)) < 0
            then 0
            else st.docCount -
              ((deleteLoop ((alGet ce.tableUri c10State.docTables).getD [])
                ["a", "b"]).2 : Int) }) := by
  have hinit : ∀ st, alGet (collKey "db" "c") c10State.stats = some st → 0 ≤ st.docCount := by
    intro st hst
    rw [show alGet (collKey "db" "c") c10State.stats =
        some ({ docCount := 1, vectorIndexSize := 0 } : CollStats) from rfl,
      Option.some.injEq] at hst
    subst hst
    decide
  obtain ⟨ha, hb⟩ := c10_doc_count_clamped c10State _ "db" "c" ["a", "b"] rfl hinit
  exact ⟨_, rfl, ha, hb⟩

/-! Index cache: capacity bound and LRU eviction. -/

theorem alPut_keys {α : Type} (k : String) (v : α) (l : List (String × α)) :
    (alPut k v l).map Prod.fst =
      if k ∈ l.map Prod.fst then l.map Prod.fst else l.map Prod.fst ++ [k] := by
  induction l with
  | nil => simp [alPut]
  | cons kv rest ih =>
    obtain ⟨k0, v0⟩ := kv
    by_cases h : k0 = k
    · subst h
      simp [alPut]
    · rw [alPut, if_neg h, List.map_cons, List.map_cons, ih]
      by_cases hm : k ∈ rest.map Prod.fst
      · simp [hm, h]
      · have hne : ¬ (k = k0) := fun h1 => h h1.symm
        simp [hm, hne]

theorem alPut_length_mem {α : Type} (k : String) (v : α) (l : List (String × α))
    (h : k ∈ l.map Prod.fst) : (alPut k v l).length = l.length := by
  have := congrArg List.length (alPut_keys k v l)
  simpa [h] using this

theorem alPut_length_not_mem {α : Type} (k : String) (v : α) (l : List (String × α))
    (h : k ∉ l.map Prod.fst) : (alPut k v l).length = l.length + 1 := by
  have := congrArg List.length (alPut_keys k v l)
  simpa [h] using this

theorem alPut_nodup {α : Type} (k : String) (v : α) (l : List (String × α))
    (h : (l.map Prod.fst).Nodup) : ((alPut k v l).map Prod.fst).Nodup := by
  rw [alPut_keys]
  by_cases hm : k ∈ l.map Prod.fst
  · simpa [hm] using h
  · simp only [hm, if_false]
    rw [List.nodup_append]
    refine ⟨h, List.nodup_singleton k, ?_⟩
    intro a ha hb
    rw [List.mem_singleton] at hb
    subst hb
    exact hm ha

theorem alDel_keys_sublist {α : Type} (k : String) (l : List (String × α)) :
    ((alDel k l).map Prod.fst).Sublist (l.map Prod.fst) := by
  induction l with
  | nil => simp [alDel]
  | cons kv rest ih =>
    obtain ⟨k0, v0⟩ := kv
    by_cases h : k0 = k
    · subst h
      rw [alDel, if_pos rfl, List.map_cons]
      exact (List.sublist_cons_self _ _)
    · rw [alDel, if_neg h, List.map_cons, List.map_cons]
      exact ih.cons₂ k0

theorem alDel_nodup {α : Type} (k : String) (l : List (String × α))
    (h : (l.map Prod.fst).Nodup) : ((alDel k l).map Prod.fst).Nodup :=
  h.sublist (alDel_keys_sublist k l)

theorem alDel_length_le {α : Type} (k : String) (l : List (String × α)) :
    (alDel k l).length ≤ l.length := by
  have := (alDel_keys_sublist k l).length_le
  simpa using this

theorem alDel_length_of_mem {α : Type} (k : String) (l : List (String × α))
    (h : k ∈ l.map Prod.fst) : (alDel k l).length + 1 = l.length := by
  induction l with
  | nil => simp at h
  | cons kv rest ih =>
    obtain ⟨k0, v0⟩ := kv
    by_cases hk : k0 = k
    · subst hk
      rw [alDel, if_pos rfl]
      simp
    · rw [alDel, if_neg hk, List.length_cons, List.length_cons]
      rw [List.map_cons, List.mem_cons] at h
      rcases h with h | h
    
      · exact absurd h.symm hk
      · rw [ih h]

theorem pickOldestAux_mem (cur : String × CacheEntry) :
    ∀ l : List (String × CacheEntry), pickOldestAux cur l ∈ cur :: l := by
  intro l
  induction l generalizing cur with
  | nil => simp [pickOldestAux]
  | cons pe rest ih =>
    rw [pickOldestAux]
    by_cases h : pe.2.lastUsed < cur.2.lastUsed
    · rw [if_pos h]
      have := ih pe
      rcases List.mem_cons.mp this with h1 | h1
      · rw [h1]; simp
      · simp [h1]
    · rw [if_neg h]
      have := ih cur
      rcases List.mem_cons.mp this with h1 | h1
      · rw [h1]; simp
      · simp [h1]

theorem pickOldestAux_min (cur : String × CacheEntry) :
    ∀ l : List (String × CacheEntry),
      (pickOldestAux cur l).2.lastUsed ≤ cur.2.lastUsed ∧
      ∀ pe ∈ l, (pickOldestAux cur l).2.lastUsed ≤ pe.2.lastUsed := by
  intro l
  induction l generalizing cur with
  | nil => simp [pickOldestAux]
  | cons pe rest ih =>
    rw [pickOldestAux]
    by_cases h : pe.2.lastUsed < cur.2.lastUsed
    · rw [if_pos h]
      obtain ⟨h1, h2⟩ := ih pe
      refine ⟨by omega, ?_⟩
      intro q hq
      rcases List.mem_cons.mp hq with hq | hq
      · subst hq; exact h1
      · exact h2 q hq
    · rw [if_neg h]
      obtain ⟨h1, h2⟩ := ih cur
      refine ⟨h1, ?_⟩
      intro q hq
      rcases List.mem_cons.mp hq with hq | hq
      · subst hq; omega
      · exact h2 q hq

theorem pickOldest_spec (l : List (String × CacheEntry)) (hne : l ≠ []) :
    ∃ p e, pickOldest l = some (p, e) ∧ (p, e) ∈ l ∧
      ∀ pe ∈ l, e.lastUsed ≤ pe.2.lastUsed := by
  cases l with
  | nil => exact absurd rfl hne
  | cons pe rest =>
    refine ⟨(pickOldestAux pe rest).1, (pickOldestAux pe rest).2, ?_, ?_, ?_⟩
    · rw [pickOldest]
    · exact pickOldestAux_mem pe rest
    · intro q hq
      obtain ⟨h1, h2⟩ := pickOldestAux_min pe rest
      rcases List.mem_cons.mp hq with hq | hq
      · subst hq; exact h1
      · exact h2 q hq

/-- Invariant of the index cache: fixed capacity, unique entry keys, entry
count bounded by the capacity. -/
def cacheInv (m : Nat) (s : CacheState) : Prop :=
  s.maxSize = m ∧ (s.entries.map Prod.fst).Nodup ∧ s.entries.length ≤ m

theorem evictOldest_inv (m : Nat) (s : CacheState) (h : cacheInv m s) :
    cacheInv m (evictOldest s) ∧ (evictOldest s).entries.length ≤ s.entries.length := by
  obtain ⟨hm, hnd, hlen⟩ := h
  rw [evictOldest]
  cases hp : pickOldest s.entries with
  | none => exact ⟨⟨hm, hnd, hlen⟩, le_rfl⟩
  | some pe =>
    obtain ⟨p, e⟩ := pe
    refine ⟨⟨hm, alDel_nodup p s.entries hnd, ?_⟩, ?_⟩
    · exact le_trans (alDel_length_le p s.entries) hlen
    · exact alDel_length_le p s.entries

theorem cacheFlushOne_inv (m : Nat) (s : CacheState) (path : String) (h : cacheInv m s) :
    cacheInv m (cacheFlushOne s path) ∧
      (cacheFlushOne s path).entries.length = s.entries.length := by
  obtain ⟨hm, hnd, hlen⟩ := h
  rw [cacheFlushOne]
  cases hg : alGet path s.entries with
  | none => exact ⟨⟨hm, hnd, hlen⟩, rfl⟩
  | some e =>
    dsimp only
    by_cases hd : e.dirty
    · rw [if_pos hd]
      have hmem : path ∈ s.entries.map Prod.fst := by
        by_contra hc
        rw [← alGet_eq_none_iff] at hc
        rw [hc] at hg
        exact Option.noConfusion hg
      have hl := alPut_length_mem path { e with dirty := false } s.entries hmem
      exact ⟨⟨hm, alPut_nodup _ _ _ hnd, by simpa [hl] using hlen⟩, hl⟩
    · rw [if_neg hd]
      exact ⟨⟨hm, hnd, hlen⟩, rfl⟩

theorem cacheFlushAll_inv (m : Nat) (s : CacheState) (h : cacheInv m s) :
    cacheInv m (cacheFlushAll s) := by
  rw [cacheFlushAll]
  generalize s.entries.map Prod.fst = paths
  induction paths generalizing s with
  | nil => exact h
  | cons p rest ih =>
    rw [List.foldl_cons]
    exact ih _ (cacheFlushOne_inv m s p h).1

theorem cacheGetOrCreate_inv (m : Nat) (s : CacheState) (path : String) (dim : Nat)
    (hm1 : 1 ≤ m) (h : cacheInv m s) : cacheInv m (cacheGetOrCreate s path dim) := by
  obtain ⟨hm, hnd, hlen⟩ := h
  rw [cacheGetOrCreate]
  cases hg : alGet path s.entries with
  | some e =>
    dsimp only
    have hmem : path ∈ s.entries.map Prod.fst := by
      by_contra hc
      rw [← alGet_eq_none_iff] at hc
      rw [hc] at hg
      exact Option.noConfusion hg
    exact ⟨hm, alPut_nodup _ _ _ hnd,
      by simpa [alPut_length_mem path _ s.entries hmem] using hlen⟩
  | none =>
    dsimp only
    have hnotmem : path ∉ s.entries.map Prod.fst := (alGet_eq_none_iff path s.entries).mp hg
    by_cases hcap : s.maxSize ≤ s.entries.length
    · rw [if_pos hcap]
      -- eviction happened; entries nonempty
      have hne : s.entries ≠ [] := by
        intro hnil
        rw [hnil] at hcap
        simp at hcap
        omega
      obtain ⟨p, e, hp, hpe, _⟩ := pickOldest_spec s.entries hne
      rw [evictOldest, hp]
      have hpmem : p ∈ s.entries.map Prod.fst := List.mem_map.mpr ⟨(p, e), hpe, rfl⟩
      have hdel : (alDel p s.entries).length + 1 = s.entries.length :=
        alDel_length_of_mem p s.entries hpmem
      have hnd' : ((alDel p s.entries).map Prod.fst).Nodup := alDel_nodup p s.entries hnd
      have hnm' : path ∉ (alDel p s.entries).map Prod.fst := by
        intro hc
        exact hnotmem ((alDel_keys_sublist p s.entries).mem hc)
      refine ⟨hm, alPut_nodup _ _ _ hnd', ?_⟩
      rw [alPut_length_not_mem path _ _ hnm']
      omega
    · rw [if_neg hcap]
      refine ⟨hm, alPut_nodup _ _ _ hnd, ?_⟩
      rw [alPut_length_not_mem path _ _ hnotmem]
      rw [hm] at hcap
      omega

theorem cacheStep_inv (m : Nat) (s : CacheState) (op : CacheOp)
    (hm1 : 1 ≤ m) (h : cacheInv m s) : cacheInv m (cacheStep s op) := by
  cases op with
  | getOrCreate path dim => exact cacheGetOrCreate_inv m s path dim hm1 h
  | markDirty path =>
    obtain ⟨hm, hnd, hlen⟩ := h
    rw [cacheStep, cacheMarkDirty]
    cases hg : alGet path s.entries with
    | none => exact ⟨hm, hnd, hlen⟩
    | some e =>
      dsimp only
      have hmem : path ∈ s.entries.map Prod.fst := by
        by_contra hc
        rw [← alGet_eq_none_iff] at hc
        rw [hc] at hg
        exact Option.noConfusion hg
      exact ⟨hm, alPut_nodup _ _ _ hnd,
        by simpa [alPut_length_mem path _ s.entries hmem] using hlen⟩
  | flushOne path => exact (cacheFlushOne_inv m s path h).1
  | flushAll => exact cacheFlushAll_inv m s h
  | remove path =>
    obtain ⟨⟨hm, hnd, hlen⟩, _⟩ := cacheFlushOne_inv m s path h
    rw [cacheStep, cacheRemove]
    exact ⟨hm, alDel_nodup _ _ hnd, le_trans (alDel_length_le _ _) hlen⟩
  | close =>
    obtain ⟨hm, _, _⟩ := cacheFlushAll_inv m s h
    rw [cacheStep, cacheClose]
    exact ⟨hm, by simp, by simp⟩

theorem cacheRun_inv (m : Nat) (disk : List (String × FaissIndex)) (ops : List CacheOp)
    (hm1 : 1 ≤ m) : cacheInv m (cacheRun (initCache m disk) ops) := by
  rw [cacheRun]
  have hinit : cacheInv m (initCache m disk) := ⟨rfl, by simp [initCache], by simp [initCache]⟩
  generalize initCache m disk = s0 at hinit
  induction ops generalizing s0 with
  | nil => exact hinit
  | cons op rest ih =>
    rw [List.foldl_cons]
    exact ih _ (cacheStep_inv m s0 op hm1 hinit)

/-- C6: over every operation sequence of an IndexCache of capacity at least
one, the entry count never exceeds the capacity; and when GetOrCreate misses
while the cache is at capacity, the evicted entry is one with the least
recent last-used timestamp, it is written to its own path exactly when it is
dirty, and it is released (absent from the map afterwards). -/
theorem c6_cache_bound_lru (m : Nat) (disk : List (String × FaissIndex)) (hm1 : 1 ≤ m) :
    (∀ ops, cacheSize (cacheRun (initCache m disk) ops) ≤ m)
  ∧ (∀ ops path dim,
      alGet path (cacheRun (initCache m disk) ops).entries = none →
      m ≤ (cacheRun (initCache m disk) ops).entries.length →
      ∃ p e, pickOldest (cacheRun (initCache m disk) ops).entries = some (p, e)
        ∧ (p, e) ∈ (cacheRun (initCache m disk) ops).entries
        ∧ (∀ pe ∈ (cacheRun (initCache m disk) ops).entries, e.lastUsed ≤ pe.2.lastUsed)
        ∧ (cacheStep (cacheRun (initCache m disk) ops) (.getOrCreate path dim)).written =
            (if e.dirty then (cacheRun (initCache m disk) ops).written ++ [p]
             else (cacheRun (initCache m disk) ops).written)
        ∧ alGet p
            (cacheStep (cacheRun (initCache m disk) ops) (.getOrCreate path dim)).entries =
            none) := by
  constructor
  · intro ops
    exact (cacheRun_inv m disk ops hm1).2.2
  · intro ops path dim habs hcap
    obtain ⟨hm, hnd, hlen⟩ := cacheRun_inv m disk ops hm1
    set s := cacheRun (initCache m disk) ops with hs
    have hne : s.entries ≠ [] := by
      intro hnil
      rw [hnil] at hcap
      simp at hcap
      omega
    obtain ⟨p, e, hp, hpe, hmin⟩ := pickOldest_spec s.entries hne
    have hppath : p ≠ path := by
      intro hq
      subst hq
      have hmem : p ∈ s.entries.map Prod.fst := List.mem_map.mpr ⟨(p, e), hpe, rfl⟩
      exact ((alGet_eq_none_iff p s.entries).mp habs) hmem
    refine ⟨p, e, hp, hpe, hmin, ?_, ?_⟩
    · rw [cacheStep, cacheGetOrCreate, habs]
      dsimp only
      rw [if_pos (by rw [hm]; exact hcap), evictOldest, hp]
    · rw [cacheStep, cacheGetOrCreate, habs]
      dsimp only
      rw [if_pos (by rw [hm]; exact hcap), evictOldest, hp]
      dsimp only
      rw [alGet_alPut_ne path p _ _ hppath]
      exact alGet_alDel_self_of_nodup p s.entries hnd

/-- Witness of C6 on a capacity-1 cache holding one dirty entry when a new
path is requested. -/
theorem c6_cache_bound_lru_witness :
    cacheSize (cacheRun (initCache 1 []) [.getOrCreate "a" 2, .markDirty "a"]) ≤ 1
  ∧ (∃ p e,
      pickOldest (cacheRun (initCache 1 [])
        [.getOrCreate "a" 2, .markDirty "a"]).entries = some (p, e)
      ∧ (p, e) ∈ (cacheRun (initCache 1 []) [.getOrCreate "a" 2, .markDirty "a"]).entries
      ∧ (∀ pe ∈ (cacheRun (initCache 1 []) [.getOrCreate "a" 2, .markDirty "a"]).entries,
          e.lastUsed ≤ pe.2.lastUsed)
      ∧ (cacheStep (cacheRun (initCache 1 []) [.getOrCreate "a" 2, .markDirty "a"])
          (.getOrCreate "b" 3)).written =
          (if e.dirty then
            (cacheRun (initCache 1 []) [.getOrCreate "a" 2, .markDirty "a"]).written ++ [p]
           else (cacheRun (initCache 1 []) [.getOrCreate "a" 2, .markDirty "a"]).written)
      ∧ alGet p (cacheStep (cacheRun (initCache 1 []) [.getOrCreate "a" 2, .markDirty "a"])
          (.getOrCreate "b" 3)).entries = none) :=
  ⟨(c6_cache_bound_lru 1 [] (by decide)).1 [.getOrCreate "a" 2, .markDirty "a"],
   (c6_cache_bound_lru 1 [] (by decide)).2 [.getOrCreate "a" 2, .markDirty "a"] "b" 3 (by rfl) (by decide)⟩

end Achilles
